import Mathlib

/-!
Shallow embedding of the settlers repository (board model, text codec,
move derivation, resource economy) and verification of its specification
claims.  Sources embedded: src/game/board.rs, src/game/resources.rs,
src/game/encoding.rs, src/moves/possible_moves.rs.

Rust integer types are modelled as Nat/Int; Rust panics (index out of
bounds, unwrap/expect) and returned Err values are distinguished by the
two constructors of DecodeErr.  HashMap/HashSet are modelled by
association lists and duplicate-free lists; only contents (never hash
iteration order) flow into any result set, matching the deterministic
observable behaviour of the Rust code.
-/

set_option maxRecDepth 10000

namespace Settlers

/-- Player: closed set of the three colours (board.rs). -/
inductive Player where
  | Red
  | Blue
  | White
deriving DecidableEq, Repr

/-- TileKind (board.rs). -/
inductive TileKind where
  | Grain
  | Wool
  | Brick
  | Lumber
  | Ore
  | Nothing
deriving DecidableEq, Repr

/-- BuildingKind (board.rs). -/
inductive BuildingKind where
  | Settlement
  | City
deriving DecidableEq, Repr

/-- Tile: dice value (u8, modelled as Nat) plus kind (board.rs). -/
structure Tile where
  dice : Nat
  kind : TileKind
deriving DecidableEq, Repr

/-- Building: intersection id (usize), kind, owner (board.rs). -/
structure Building where
  intersection_id : Nat
  kind : BuildingKind
  player : Player
deriving DecidableEq, Repr

/-- Road: path id (usize) and owner (board.rs). -/
structure Road where
  id : Nat
  player : Player
deriving DecidableEq, Repr

/-- ResourceCount: five i8 counters, modelled as Int (resources.rs). -/
structure ResourceCount where
  grain : Int
  wool : Int
  brick : Int
  lumber : Int
  ore : Int
deriving DecidableEq, Repr

/-- PlayerResourceCount (resources.rs). -/
structure PlayerResourceCount where
  red : ResourceCount
  blue : ResourceCount
  white : ResourceCount
deriving DecidableEq, Repr

/-- State (board.rs): buildings, roads, robber tile id, resources. -/
structure State where
  buildings : List Building
  roads : List Road
  robber : Nat
  resources : PlayerResourceCount
deriving DecidableEq, Repr

/-- Game (board.rs): the board's 19 tiles plus the mutable state.  The
path/intersection adjacency tables of Board are fixed constants of
Board::new and are embedded below as top-level tables. -/
structure Game where
  tiles : List Tile
  state : State
deriving DecidableEq, Repr

/-- PATHS constant (board.rs). -/
def PATHS : Nat := 72

/-- INTERSECTIONS constant (board.rs). -/
def INTERSECTIONS : Nat := 54

/-- TILES constant (board.rs). -/
def TILES : Nat := 19

/-- The fixed 72-entry path table of Board::new (board.rs lines 235-308):
entry i is the unordered pair of intersection ids of path i. -/
def boardPaths : List (Nat × Nat) :=
  [(0, 1), (1, 2), (2, 3), (3, 4), (4, 5), (5, 6),
   (0, 8), (2, 10), (4, 12), (6, 14),
   (8, 7), (8, 9), (9, 10), (10, 11), (11, 12), (12, 13), (13, 14), (14, 15),
   (7, 17), (9, 19), (11, 21), (13, 23), (15, 25),
   (16, 17), (17, 18), (18, 19), (19, 20), (20, 21), (21, 22), (22, 23),
   (23, 24), (24, 25), (25, 26),
   (16, 27), (18, 29), (20, 31), (22, 33), (24, 35), (26, 37),
   (27, 28), (28, 29), (29, 30), (30, 31), (31, 32), (32, 33), (33, 34),
   (34, 35), (35, 36), (36, 37),
   (28, 38), (30, 40), (32, 42), (34, 44), (36, 46),
   (38, 39), (39, 40), (40, 41), (41, 42), (42, 43), (43, 44), (44, 45),
   (45, 45),
   (39, 47), (41, 49), (43, 51), (45, 53),
   (47, 48), (48, 49), (49, 50), (50, 51), (51, 52), (52, 53)]

/-- The fixed 54-entry intersection table of Board::new (board.rs lines
310-365): entry v is the list of incident path ids. -/
def boardIntersectionPaths : List (List Nat) :=
  [[0, 6], [0, 1], [1, 2, 7], [2, 3], [3, 4, 8], [4, 5], [5, 9],
   [10, 18], [10, 6, 11], [11, 12, 19], [7, 12, 13], [13, 14, 20],
   [8, 14, 15], [15, 16, 21], [9, 16, 17], [17, 22],
   [23, 33], [18, 23, 24], [24, 25, 34], [19, 25, 26], [26, 27, 35],
   [20, 27, 28], [28, 29, 36], [21, 29, 30], [30, 31, 37], [22, 31, 32],
   [32, 38],
   [33, 39], [39, 40, 49], [34, 40, 41], [41, 42, 50], [35, 42, 43],
   [43, 44, 51], [36, 44, 45], [45, 46, 52], [37, 46, 47], [47, 48, 53],
   [38, 48],
   [49, 54], [54, 55, 62], [50, 55, 56], [56, 57, 63], [51, 57, 58],
   [58, 59, 64], [52, 59, 60], [60, 61, 65], [53, 61],
   [62, 66], [66, 67], [63, 67, 68], [68, 69], [64, 69, 70], [70, 71],
   [65, 71]]

/-! ## Resource economy (resources.rs) -/

/-- Buys (resources.rs). -/
inductive Buys where
  | Road
  | Settlement
  | City
deriving DecidableEq, Repr

/-- ROAD_COST (resources.rs). -/
def ROAD_COST : ResourceCount := ⟨0, 0, 1, 1, 0⟩

/-- SETTLEMENT_COST (resources.rs). -/
def SETTLEMENT_COST : ResourceCount := ⟨1, 1, 1, 1, 0⟩

/-- CITY_COST (resources.rs). -/
def CITY_COST : ResourceCount := ⟨3, 0, 0, 0, 2⟩

/-- Two's-complement wrap into the i8 value range [-128, 127]:
release-mode Rust semantics of i8 overflow (debug builds panic
instead); it leaves a value unchanged exactly when it already lies in
the range. -/
def wrap8 (x : Int) : Int := (x + 128) % 256 - 128

/-- Sub impl for ResourceCount (resources.rs): fieldwise i8
subtraction, wrapping on overflow (release semantics; a debug build
panics at the same stocks). -/
def ResourceCount.sub (a b : ResourceCount) : ResourceCount :=
  ⟨wrap8 (a.grain - b.grain), wrap8 (a.wool - b.wool),
   wrap8 (a.brick - b.brick), wrap8 (a.lumber - b.lumber),
   wrap8 (a.ore - b.ore)⟩

/-- Specification-side exact deduction: subtraction of unbounded
counters, following the claim's words ("cost deductions ... keeping
all five counters non-negative"); named apart from the code's wrapping
i8 subtraction. -/
def ResourceCount.subExact (a b : ResourceCount) : ResourceCount :=
  ⟨a.grain - b.grain, a.wool - b.wool, a.brick - b.brick,
   a.lumber - b.lumber, a.ore - b.ore⟩

/-- ResourceCount::is_positive (resources.rs): all five fields are
non-negative (zero allowed). -/
def ResourceCount.is_positive (a : ResourceCount) : Bool :=
  0 ≤ a.grain && 0 ≤ a.wool && 0 ≤ a.brick && 0 ≤ a.lumber && 0 ≤ a.ore

/-- The cost deducted for one purchase kind, in the order of the zip in
possible_buys_dfs. -/
def buyCost : Buys → ResourceCount
  | .Road => ROAD_COST
  | .Settlement => SETTLEMENT_COST
  | .City => CITY_COST

/-- HashSet::insert on the list model: add if not already present. -/
def insertBuy (b : Buys) (s : List Buys) : List Buys :=
  if b ∈ s then s else b :: s

/-- Total of the five counters, used in the termination measure of the
possible-buys depth-first search. -/
def ResourceCount.total (a : ResourceCount) : Int :=
  a.grain + a.wool + a.brick + a.lumber + a.ore

/-- All five fields lie in [0, 127]: the value range of every stock the
search recurses on (a wrapped difference that passed is_positive). -/
def ResourceCount.posRange (a : ResourceCount) : Bool :=
  (0 ≤ a.grain && a.grain ≤ 127) && (0 ≤ a.wool && a.wool ≤ 127) &&
  (0 ≤ a.brick && a.brick ≤ 127) && (0 ≤ a.lumber && a.lumber ≤ 127) &&
  (0 ≤ a.ore && a.ore ≤ 127)

/-- All five fields lie in [-125, 127]: the i8 stocks on which no cost
subtraction of the search can wrap (every cost field is at most 3), so
the i8 search agrees with exact arithmetic.  Every stock of
non-negative i8 counters qualifies. -/
def ResourceCount.okRange (a : ResourceCount) : Bool :=
  (-125 ≤ a.grain && a.grain ≤ 127) && (-125 ≤ a.wool && a.wool ≤ 127) &&
  (-125 ≤ a.brick && a.brick ≤ 127) &&
  (-125 ≤ a.lumber && a.lumber ≤ 127) && (-125 ≤ a.ore && a.ore ≤ 127)

theorem wrap8_bounds (x : Int) : -128 ≤ wrap8 x ∧ wrap8 x ≤ 127 := by
  unfold wrap8
  omega

theorem wrap8_eq_self {x : Int} (h1 : -128 ≤ x) (h2 : x ≤ 127) :
    wrap8 x = x := by
  unfold wrap8
  omega

theorem subExact_total (a b : ResourceCount) :
    (a.subExact b).total = a.total - b.total := by
  simp [ResourceCount.subExact, ResourceCount.total]
  ring

theorem is_positive_total {a : ResourceCount}
    (h : a.is_positive = true) : 0 ≤ a.total := by
  simp [ResourceCount.is_positive] at h
  simp [ResourceCount.total]
  omega

theorem posRange_sub (rc c : ResourceCount)
    (h : (rc.sub c).is_positive = true) : (rc.sub c).posRange = true := by
  have b1 := wrap8_bounds (rc.grain - c.grain)
  have b2 := wrap8_bounds (rc.wool - c.wool)
  have b3 := wrap8_bounds (rc.brick - c.brick)
  have b4 := wrap8_bounds (rc.lumber - c.lumber)
  have b5 := wrap8_bounds (rc.ore - c.ore)
  simp only [ResourceCount.sub, ResourceCount.is_positive,
    Bool.and_eq_true, decide_eq_true_eq] at h
  simp only [ResourceCount.sub, ResourceCount.posRange,
    Bool.and_eq_true, decide_eq_true_eq]
  omega

theorem okRange_of_posRange {rc : ResourceCount}
    (h : rc.posRange = true) : rc.okRange = true := by
  simp only [ResourceCount.posRange, Bool.and_eq_true,
    decide_eq_true_eq] at h
  simp only [ResourceCount.okRange, Bool.and_eq_true, decide_eq_true_eq]
  omega

theorem total_posRange_bounds {rc : ResourceCount}
    (h : rc.posRange = true) : 0 ≤ rc.total ∧ rc.total ≤ 635 := by
  simp only [ResourceCount.posRange, Bool.and_eq_true,
    decide_eq_true_eq] at h
  simp only [ResourceCount.total]
  omega

theorem sub_eq_subExact {rc : ResourceCount} (hr : rc.okRange = true)
    {c : ResourceCount}
    (hc : c = ROAD_COST ∨ c = SETTLEMENT_COST ∨ c = CITY_COST) :
    rc.sub c = rc.subExact c := by
  simp only [ResourceCount.okRange, Bool.and_eq_true,
    decide_eq_true_eq] at hr
  rcases hc with rfl | rfl | rfl <;>
    (simp only [ResourceCount.sub, ResourceCount.subExact, ROAD_COST,
       SETTLEMENT_COST, CITY_COST, ResourceCount.mk.injEq]
     refine ⟨?_, ?_, ?_, ?_, ?_⟩ <;> (apply wrap8_eq_self <;> omega))

theorem okRange_subExact {rc c : ResourceCount} (hr : rc.okRange = true)
    (hc : c = ROAD_COST ∨ c = SETTLEMENT_COST ∨ c = CITY_COST)
    (h : (rc.subExact c).is_positive = true) :
    (rc.subExact c).okRange = true := by
  rcases hc with rfl | rfl | rfl <;>
    (simp only [ResourceCount.subExact, ResourceCount.is_positive,
       ResourceCount.okRange, ROAD_COST, SETTLEMENT_COST, CITY_COST,
       Bool.and_eq_true, decide_eq_true_eq] at hr h ⊢
     omega)

/-- Termination measure of the search: the total of an in-range stock,
or a value above every in-range total.  Each recursive argument has
passed is_positive, so it lies in [0, 127]^5; from there the (then
exact) subtraction strictly shrinks the total. -/
def pbMeasure (rc : ResourceCount) : Nat :=
  if rc.posRange = true then rc.total.toNat else 1281

theorem branch_measure_lt (rc c : ResourceCount)
    (hc : c = ROAD_COST ∨ c = SETTLEMENT_COST ∨ c = CITY_COST)
    (h : (rc.sub c).is_positive = true) :
    pbMeasure (rc.sub c) < pbMeasure rc := by
  have hpr := posRange_sub rc c h
  by_cases hrc : rc.posRange = true
  · unfold pbMeasure
    rw [if_pos hpr, if_pos hrc]
    have hse := sub_eq_subExact (okRange_of_posRange hrc) hc
    have ht := subExact_total rc c
    have hpos := is_positive_total h
    have hct : 1 ≤ c.total := by
      rcases hc with rfl | rfl | rfl <;> decide
    have h0 := (total_posRange_bounds hrc).1
    rw [hse] at hpos
    rw [hse]
    omega
  · unfold pbMeasure
    rw [if_pos hpr, if_neg hrc]
    have := total_posRange_bounds hpr
    omega

/-- ResourceCount::possible_buys_dfs (resources.rs lines 83-92): for each
of the three costs in order Road, Settlement, City, subtract it (i8
arithmetic); if the remainder is still non-negative record the buy and
recurse on the remainder, threading the accumulated set. -/
def possible_buys_dfs (rc : ResourceCount) (buys : List Buys) : List Buys :=
  let b1 := if h : (rc.sub ROAD_COST).is_positive = true then
      possible_buys_dfs (rc.sub ROAD_COST) (insertBuy .Road buys)
    else buys
  let b2 := if h : (rc.sub SETTLEMENT_COST).is_positive = true then
      possible_buys_dfs (rc.sub SETTLEMENT_COST) (insertBuy .Settlement b1)
    else b1
  if h : (rc.sub CITY_COST).is_positive = true then
    possible_buys_dfs (rc.sub CITY_COST) (insertBuy .City b2)
  else b2
termination_by pbMeasure rc
decreasing_by
  · exact branch_measure_lt rc ROAD_COST (Or.inl rfl) h
  · exact branch_measure_lt rc SETTLEMENT_COST (Or.inr (Or.inl rfl)) h
  · exact branch_measure_lt rc CITY_COST (Or.inr (Or.inr rfl)) h

/-- ResourceCount::possible_buys (resources.rs lines 93-97). -/
def possible_buys (rc : ResourceCount) : List Buys :=
  possible_buys_dfs rc []

/-- A feasible deduction sequence from a stock: each step subtracts the
cost of the named purchase kind exactly (unbounded counters, per the
claim's words) and every intermediate balance keeps all five counters
non-negative.  This is the specification-side notion that the claim
compares possible_buys against. -/
inductive DeductSeq : ResourceCount → List Buys → Prop where
  | nil (rc : ResourceCount) : DeductSeq rc []
  | cons (rc : ResourceCount) (b : Buys) (rest : List Buys)
      (hpos : (rc.subExact (buyCost b)).is_positive = true)
      (hrest : DeductSeq (rc.subExact (buyCost b)) rest) :
      DeductSeq rc (b :: rest)

theorem mem_insertBuy_self (b : Buys) (s : List Buys) : b ∈ insertBuy b s := by
  by_cases h : b ∈ s <;> simp [insertBuy, h]

theorem mem_insertBuy_of_mem (b c : Buys) (s : List Buys) (h : b ∈ s) :
    b ∈ insertBuy c s := by
  by_cases hc : c ∈ s <;> simp [insertBuy, hc, h]

theorem mem_possible_buys_dfs_of_mem :
    ∀ (n : Nat) (rc : ResourceCount) (buys : List Buys) (b : Buys),
      pbMeasure rc ≤ n → b ∈ buys → b ∈ possible_buys_dfs rc buys := by
  intro n
  induction n with
  | zero =>
    intro rc buys b hn hb
    rw [possible_buys_dfs]
    have hC : ¬ (rc.sub CITY_COST).is_positive = true := fun h => by
      have := branch_measure_lt rc CITY_COST (Or.inr (Or.inr rfl)) h
      omega
    have hS : ¬ (rc.sub SETTLEMENT_COST).is_positive = true := fun h => by
      have := branch_measure_lt rc SETTLEMENT_COST (Or.inr (Or.inl rfl)) h
      omega
    have hR : ¬ (rc.sub ROAD_COST).is_positive = true := fun h => by
      have := branch_measure_lt rc ROAD_COST (Or.inl rfl) h
      omega
    rw [dif_neg hC, dif_neg hS, dif_neg hR]
    exact hb
  | succ n ih =>
    intro rc buys b hn hb
    rw [possible_buys_dfs]
    have step : ∀ (c : ResourceCount) (k : Buys) (s : List Buys),
        (c = ROAD_COST ∨ c = SETTLEMENT_COST ∨ c = CITY_COST) → b ∈ s →
        (rc.sub c).is_positive = true →
        b ∈ possible_buys_dfs (rc.sub c) (insertBuy k s) := by
      intro c k s hc hs hpos
      apply ih _ _ b _ (mem_insertBuy_of_mem _ _ _ hs)
      have := branch_measure_lt rc c hc hpos
      omega
    have inner : b ∈ (if _h : (rc.sub SETTLEMENT_COST).is_positive = true then
        possible_buys_dfs (rc.sub SETTLEMENT_COST) (insertBuy .Settlement
          (if _h : (rc.sub ROAD_COST).is_positive = true then
            possible_buys_dfs (rc.sub ROAD_COST) (insertBuy .Road buys)
          else buys))
      else (if _h : (rc.sub ROAD_COST).is_positive = true then
            possible_buys_dfs (rc.sub ROAD_COST) (insertBuy .Road buys)
          else buys)) := by
      split
      · next hS =>
        refine step _ _ _ (Or.inr (Or.inl rfl)) ?_ hS
        split
        · next hR => exact step _ _ _ (Or.inl rfl) hb hR
        · exact hb
      · split
        · next hR => exact step _ _ _ (Or.inl rfl) hb hR
        · exact hb
    split
    · next hC =>
      exact step _ _ _ (Or.inr (Or.inr rfl)) inner hC
    · exact inner

theorem pb_mono (rc : ResourceCount) (buys : List Buys) (b : Buys)
    (h : b ∈ buys) : b ∈ possible_buys_dfs rc buys :=
  mem_possible_buys_dfs_of_mem (pbMeasure rc) rc buys b le_rfl h

theorem mem_insertBuy_iff (b c : Buys) (s : List Buys) :
    b ∈ insertBuy c s ↔ b = c ∨ b ∈ s := by
  by_cases h : c ∈ s
  · simp only [insertBuy, if_pos h]
    constructor
    · exact Or.inr
    · rintro (rfl | hb)
      · exact h
      · exact hb
  · simp [insertBuy, if_neg h]

/-- Any result of the two inner branches (Road then Settlement) contains
everything reachable through the chain; used to commute membership through
the branch structure. -/
theorem pb_chain_mem (rc : ResourceCount) (b : Buys) (s : List Buys)
    (h : b ∈ s) :
    b ∈ (if _h : (rc.sub SETTLEMENT_COST).is_positive = true then
        possible_buys_dfs (rc.sub SETTLEMENT_COST) (insertBuy .Settlement s)
      else s) := by
  split
  · exact pb_mono _ _ _ (mem_insertBuy_of_mem _ _ _ h)
  · exact h

/-- Companion to pb_chain_mem for the outermost (City) branch. -/
theorem pb_city_mem (rc : ResourceCount) (b : Buys) (s : List Buys)
    (h : b ∈ s) :
    b ∈ (if _h : (rc.sub CITY_COST).is_positive = true then
        possible_buys_dfs (rc.sub CITY_COST) (insertBuy .City s)
      else s) := by
  split
  · exact pb_mono _ _ _ (mem_insertBuy_of_mem _ _ _ h)
  · exact h

theorem mem_of_deduct_seq :
    ∀ (ks : List Buys) (rc : ResourceCount) (b : Buys) (buys : List Buys),
      rc.okRange = true → DeductSeq rc ks → b ∈ ks →
      b ∈ possible_buys_dfs rc buys := by
  intro ks
  induction ks with
  | nil => intro rc b buys _ _ hb; cases hb
  | cons c rest ih =>
    intro rc b buys hrc hseq hb
    cases hseq with
    | cons _ _ _ hpos hrest =>
      rw [possible_buys_dfs]
      cases c with
      | Road =>
        have hse : rc.sub ROAD_COST = rc.subExact ROAD_COST :=
          sub_eq_subExact hrc (Or.inl rfl)
        have hposE : (rc.subExact ROAD_COST).is_positive = true := hpos
        have hposR : (rc.sub ROAD_COST).is_positive = true := by
          rw [hse]; exact hposE
        have hok2 : (rc.subExact ROAD_COST).okRange = true :=
          okRange_subExact hrc (Or.inl rfl) hposE
        have hnext : ∀ s : List Buys,
            b ∈ possible_buys_dfs (rc.subExact ROAD_COST)
              (insertBuy Buys.Road s) := by
          intro s
          rcases List.mem_cons.mp hb with rfl | hbrest
          · exact pb_mono _ _ _ (mem_insertBuy_self _ _)
          · exact ih _ _ _ hok2 hrest hbrest
        have hB1 : b ∈ (if _h : (rc.sub ROAD_COST).is_positive = true then
            possible_buys_dfs (rc.sub ROAD_COST) (insertBuy .Road buys)
          else buys) := by
          rw [dif_pos hposR, hse]
          exact hnext buys
        exact pb_city_mem rc b _ (pb_chain_mem rc b _ hB1)
      | Settlement =>
        have hse : rc.sub SETTLEMENT_COST = rc.subExact SETTLEMENT_COST :=
          sub_eq_subExact hrc (Or.inr (Or.inl rfl))
        have hposE : (rc.subExact SETTLEMENT_COST).is_positive = true := hpos
        have hposS : (rc.sub SETTLEMENT_COST).is_positive = true := by
          rw [hse]; exact hposE
        have hok2 : (rc.subExact SETTLEMENT_COST).okRange = true :=
          okRange_subExact hrc (Or.inr (Or.inl rfl)) hposE
        have hnext : ∀ s : List Buys,
            b ∈ possible_buys_dfs (rc.subExact SETTLEMENT_COST)
              (insertBuy Buys.Settlement s) := by
          intro s
          rcases List.mem_cons.mp hb with rfl | hbrest
          · exact pb_mono _ _ _ (mem_insertBuy_self _ _)
          · exact ih _ _ _ hok2 hrest hbrest
        have hB2 : b ∈ (if _h :
            (rc.sub SETTLEMENT_COST).is_positive = true then
            possible_buys_dfs (rc.sub SETTLEMENT_COST) (insertBuy .Settlement
              (if _h : (rc.sub ROAD_COST).is_positive = true then
                possible_buys_dfs (rc.sub ROAD_COST) (insertBuy .Road buys)
              else buys))
          else (if _h : (rc.sub ROAD_COST).is_positive = true then
                possible_buys_dfs (rc.sub ROAD_COST) (insertBuy .Road buys)
              else buys)) := by
          rw [dif_pos hposS, hse]
          exact hnext _
        exact pb_city_mem rc b _ hB2
      | City =>
        have hse : rc.sub CITY_COST = rc.subExact CITY_COST :=
          sub_eq_subExact hrc (Or.inr (Or.inr rfl))
        have hposE : (rc.subExact CITY_COST).is_positive = true := hpos
        have hposC : (rc.sub CITY_COST).is_positive = true := by
          rw [hse]; exact hposE
        have hok2 : (rc.subExact CITY_COST).okRange = true :=
          okRange_subExact hrc (Or.inr (Or.inr rfl)) hposE
        have hnext : ∀ s : List Buys,
            b ∈ possible_buys_dfs (rc.subExact CITY_COST)
              (insertBuy Buys.City s) := by
          intro s
          rcases List.mem_cons.mp hb with rfl | hbrest
          · exact pb_mono _ _ _ (mem_insertBuy_self _ _)
          · exact ih _ _ _ hok2 hrest hbrest
        rw [dif_pos hposC, hse]
        exact hnext _

theorem possible_buys_dfs_mem_iff :
    ∀ (n : Nat) (rc : ResourceCount) (buys : List Buys) (b : Buys),
      pbMeasure rc ≤ n → rc.okRange = true →
      (b ∈ possible_buys_dfs rc buys ↔
        b ∈ buys ∨ ∃ ks, DeductSeq rc ks ∧ b ∈ ks) := by
  intro n
  induction n with
  | zero =>
    intro rc buys b hn hrc
    have hC : ¬ (rc.sub CITY_COST).is_positive = true := fun h => by
      have := branch_measure_lt rc CITY_COST (Or.inr (Or.inr rfl)) h
      omega
    have hS : ¬ (rc.sub SETTLEMENT_COST).is_positive = true := fun h => by
      have := branch_measure_lt rc SETTLEMENT_COST (Or.inr (Or.inl rfl)) h
      omega
    have hR : ¬ (rc.sub ROAD_COST).is_positive = true := fun h => by
      have := branch_measure_lt rc ROAD_COST (Or.inl rfl) h
      omega
    rw [possible_buys_dfs, dif_neg hC, dif_neg hS, dif_neg hR]
    constructor
    · exact Or.inl
    · rintro (hb | ⟨ks, hseq, hks⟩)
      · exact hb
      · cases hseq with
        | nil => cases hks
        | cons _ c rest hpos _ =>
          cases c
          · exact absurd (by
              rw [sub_eq_subExact hrc (Or.inl rfl)]; exact hpos) hR
          · exact absurd (by
              rw [sub_eq_subExact hrc (Or.inr (Or.inl rfl))]; exact hpos) hS
          · exact absurd (by
              rw [sub_eq_subExact hrc (Or.inr (Or.inr rfl))]; exact hpos) hC
  | succ n ih =>
    intro rc buys b hn hrc
    constructor
    · intro hmem
      have analyzeB1 :
          b ∈ (if _h : (rc.sub ROAD_COST).is_positive = true then
              possible_buys_dfs (rc.sub ROAD_COST) (insertBuy .Road buys)
            else buys) →
          b ∈ buys ∨ ∃ ks, DeductSeq rc ks ∧ b ∈ ks := by
        intro h1
        by_cases hR : (rc.sub ROAD_COST).is_positive = true
        · rw [dif_pos hR] at h1
          have hmeas : pbMeasure (rc.sub ROAD_COST) ≤ n := by
            have := branch_measure_lt rc ROAD_COST (Or.inl rfl) hR
            omega
          have hok2 : (rc.sub ROAD_COST).okRange = true :=
            okRange_of_posRange (posRange_sub rc ROAD_COST hR)
          have hposE : (rc.subExact ROAD_COST).is_positive = true := by
            rw [← sub_eq_subExact hrc (Or.inl rfl)]
            exact hR
          rcases (ih _ _ b hmeas hok2).mp h1 with h2 | ⟨ks, hseq, hks⟩
          · rcases (mem_insertBuy_iff b .Road buys).mp h2 with rfl | h3
            · exact Or.inr ⟨[.Road], .cons rc .Road [] hposE (.nil _),
                List.mem_singleton.mpr rfl⟩
            · exact Or.inl h3
          · have hseq2 : DeductSeq (rc.subExact ROAD_COST) ks := by
              rw [← sub_eq_subExact hrc (Or.inl rfl)]
              exact hseq
            exact Or.inr ⟨.Road :: ks, .cons rc .Road ks hposE hseq2,
              List.mem_cons_of_mem _ hks⟩
        · rw [dif_neg hR] at h1
          exact Or.inl h1
      have analyzeB2 :
          b ∈ (if _h : (rc.sub SETTLEMENT_COST).is_positive = true then
              possible_buys_dfs (rc.sub SETTLEMENT_COST) (insertBuy .Settlement
                (if _h : (rc.sub ROAD_COST).is_positive = true then
                  possible_buys_dfs (rc.sub ROAD_COST) (insertBuy .Road buys)
                else buys))
            else (if _h : (rc.sub ROAD_COST).is_positive = true then
                possible_buys_dfs (rc.sub ROAD_COST) (insertBuy .Road buys)
              else buys)) →
          b ∈ buys ∨ ∃ ks, DeductSeq rc ks ∧ b ∈ ks := by
        intro h1
        by_cases hS : (rc.sub SETTLEMENT_COST).is_positive = true
        · rw [dif_pos hS] at h1
          have hmeas : pbMeasure (rc.sub SETTLEMENT_COST) ≤ n := by
            have := branch_measure_lt rc SETTLEMENT_COST
              (Or.inr (Or.inl rfl)) hS
            omega
          have hok2 : (rc.sub SETTLEMENT_COST).okRange = true :=
            okRange_of_posRange (posRange_sub rc SETTLEMENT_COST hS)
          have hposE : (rc.subExact SETTLEMENT_COST).is_positive = true := by
            rw [← sub_eq_subExact hrc (Or.inr (Or.inl rfl))]
            exact hS
          rcases (ih _ _ b hmeas hok2).mp h1 with h2 | ⟨ks, hseq, hks⟩
          · rcases (mem_insertBuy_iff b .Settlement _).mp h2 with rfl | h3
            · exact Or.inr ⟨[.Settlement],
                .cons rc .Settlement [] hposE (.nil _),
                List.mem_singleton.mpr rfl⟩
            · exact analyzeB1 h3
          · have hseq2 : DeductSeq (rc.subExact SETTLEMENT_COST) ks := by
              rw [← sub_eq_subExact hrc (Or.inr (Or.inl rfl))]
              exact hseq
            exact Or.inr ⟨.Settlement :: ks,
              .cons rc .Settlement ks hposE hseq2,
              List.mem_cons_of_mem _ hks⟩
        · rw [dif_neg hS] at h1
          exact analyzeB1 h1
      rw [possible_buys_dfs] at hmem
      by_cases hC : (rc.sub CITY_COST).is_positive = true
      · rw [dif_pos hC] at hmem
        have hmeas : pbMeasure (rc.sub CITY_COST) ≤ n := by
          have := branch_measure_lt rc CITY_COST (Or.inr (Or.inr rfl)) hC
          omega
        have hok2 : (rc.sub CITY_COST).okRange = true :=
          okRange_of_posRange (posRange_sub rc CITY_COST hC)
        have hposE : (rc.subExact CITY_COST).is_positive = true := by
          rw [← sub_eq_subExact hrc (Or.inr (Or.inr rfl))]
          exact hC
        rcases (ih _ _ b hmeas hok2).mp hmem with h2 | ⟨ks, hseq, hks⟩
        · rcases (mem_insertBuy_iff b .City _).mp h2 with rfl | h3
          · exact Or.inr ⟨[.City], .cons rc .City [] hposE (.nil _),
              List.mem_singleton.mpr rfl⟩
          · exact analyzeB2 h3
        · have hseq2 : DeductSeq (rc.subExact CITY_COST) ks := by
            rw [← sub_eq_subExact hrc (Or.inr (Or.inr rfl))]
            exact hseq
          exact Or.inr ⟨.City :: ks, .cons rc .City ks hposE hseq2,
            List.mem_cons_of_mem _ hks⟩
      · rw [dif_neg hC] at hmem
        exact analyzeB2 hmem
    · rintro (hb | ⟨ks, hseq, hks⟩)
      · exact pb_mono _ _ _ hb
      · exact mem_of_deduct_seq ks rc b buys hrc hseq hks

theorem possible_buys_example :
    possible_buys ⟨1, 1, 1, 1, 0⟩ = [.Settlement, .Road] := by
  simp [possible_buys, possible_buys_dfs, ResourceCount.sub, wrap8,
    ResourceCount.is_positive, ROAD_COST, SETTLEMENT_COST, CITY_COST,
    insertBuy]

/-- C4 (amended): with the i8 counters of ResourceCount modelled by
wrapping subtraction (release-mode overflow semantics; debug builds
panic), the exactness claim holds on every stock on which no cost
subtraction can wrap — all five counters in [-125, 127], in particular
every stock of non-negative i8 counters: possible_buys r is then
exactly the set of purchase kinds contained in some sequence of exact
cost deductions from r that keeps all five counters non-negative.  The
cost table is as claimed, and the stock (grain 1, wool 1, brick 1,
lumber 1, ore 0) yields exactly the set of kinds Road and Settlement.
At i8-extreme stocks the original universal claim fails: see the
counterexample. -/
theorem C4_possible_buys_exact :
    (∀ (rc : ResourceCount) (b : Buys), rc.okRange = true →
      (b ∈ possible_buys rc ↔ ∃ ks, DeductSeq rc ks ∧ b ∈ ks)) ∧
    (buyCost .Road = ⟨0, 0, 1, 1, 0⟩ ∧
      buyCost .Settlement = ⟨1, 1, 1, 1, 0⟩ ∧
      buyCost .City = ⟨3, 0, 0, 0, 2⟩) ∧
    (∀ b : Buys, b ∈ possible_buys ⟨1, 1, 1, 1, 0⟩ ↔
      b ∈ ([.Road, .Settlement] : List Buys)) := by
  refine ⟨?_, ⟨rfl, rfl, rfl⟩, ?_⟩
  · intro rc b hrc
    rw [possible_buys,
      possible_buys_dfs_mem_iff (pbMeasure rc) rc [] b le_rfl hrc]
    simp
  · intro b
    rw [possible_buys_example]
    cases b <;> simp

/-- C4 witness: the exactness theorem applied at the in-range stock
(1, 1, 1, 1, 0). -/
theorem C4_witness :
    Buys.Road ∈ possible_buys ⟨1, 1, 1, 1, 0⟩ ↔
      ∃ ks, DeductSeq ⟨1, 1, 1, 1, 0⟩ ks ∧ Buys.Road ∈ ks :=
  C4_possible_buys_exact.1 ⟨1, 1, 1, 1, 0⟩ .Road (by decide)

/-- C4 counterexample: at the i8-extreme stock (0, 0, -128, -128, 0)
the road-cost subtraction wraps to (0, 0, 127, 127, 0) (a debug build
panics there instead), so the search reports Road, while no sequence
of exact cost deductions keeping all counters non-negative contains
any purchase at all. -/
theorem C4_counterexample :
    ResourceCount.sub ⟨0, 0, -128, -128, 0⟩ ROAD_COST =
      ⟨0, 0, 127, 127, 0⟩ ∧
    ResourceCount.subExact ⟨0, 0, -128, -128, 0⟩ ROAD_COST =
      ⟨0, 0, -129, -129, 0⟩ ∧
    Buys.Road ∈ possible_buys ⟨0, 0, -128, -128, 0⟩ ∧
    ¬ ∃ ks, DeductSeq ⟨0, 0, -128, -128, 0⟩ ks ∧ Buys.Road ∈ ks := by
  refine ⟨by decide, by decide, ?_, ?_⟩
  · rw [possible_buys, possible_buys_dfs]
    have hR : ((⟨0, 0, -128, -128, 0⟩ : ResourceCount).sub
        ROAD_COST).is_positive = true := by decide
    refine pb_city_mem _ _ _ (pb_chain_mem _ _ _ ?_)
    rw [dif_pos hR]
    exact pb_mono _ _ _ (mem_insertBuy_self _ _)
  · rintro ⟨ks, hseq, hks⟩
    cases hseq with
    | nil => cases hks
    | cons _ c rest hpos _ =>
      cases c
      · exact absurd hpos (by decide)
      · exact absurd hpos (by decide)
      · exact absurd hpos (by decide)

/-! ## Move derivation (possible_moves.rs) -/

/-- Generic HashSet::insert on the duplicate-free list model. -/
def hsetInsert {α : Type} [DecidableEq α] (x : α) (s : List α) : List α :=
  if x ∈ s then s else x :: s

/-- HashMap<usize, Vec<usize>> modelled as an association list; only keyed
lookups and whole-content iteration are used by the code, so the entry
order never influences any derived set. -/
def AdjList : Type := List (Nat × List Nat)

/-- Keyed lookup, HashMap::get / Index. -/
def lookupAdj (g : AdjList) (k : Nat) : Option (List Nat) :=
  match g with
  | [] => none
  | (k2, vs) :: rest => if k = k2 then some vs else lookupAdj rest k

/-- graph.entry(k).or_insert_with(Vec::new).push(v). -/
def entryPush (g : AdjList) (k v : Nat) : AdjList :=
  match g with
  | [] => [(k, [v])]
  | (k2, vs) :: rest =>
    if k = k2 then (k2, vs ++ [v]) :: rest else (k2, vs) :: entryPush rest k v

/-- One iteration of the road_graph loop: skip roads of other players,
index the path table (panic → none when out of range), then push each
endpoint onto the other's adjacency list. -/
def roadGraphStep (p : Player) (acc : Option AdjList) (road : Road) :
    Option AdjList :=
  acc.bind (fun gr =>
    if road.player = p then
      match boardPaths[road.id]? with
      | none => none
      | some (a, b) => some (entryPush (entryPush gr a b) b a)
    else some gr)

/-- Game::road_graph (possible_moves.rs lines 120-130): adjacency of the
player's roads; indexing board.paths with an out-of-range path id is a
Rust panic, modelled as none. -/
def road_graph (g : Game) (p : Player) : Option AdjList :=
  g.state.roads.foldl (roadGraphStep p) (some [])

mutual

/-- Game::dfs (possible_moves.rs lines 65-87).  Returns (height of the
current branch, updated longest, visited set); `none` models the Rust
panic when `graph[&node]` misses (or the fuel artifact, which never fires
at the fuel chosen by longest_road below).  The `longest` parameter is
passed down unchanged and children's longest outputs are discarded,
exactly as in the source. -/
def dfs (g : AdjList) (fuel : Nat) (node : Nat) (visited : List Nat)
    (longest : Nat) : Option (Nat × Nat × List Nat) :=
  match fuel with
  | 0 => none
  | fuel' + 1 =>
    if node ∈ visited then some (0, 0, visited)
    else
      match lookupAdj g node with
      | none => none
      | some ns =>
        match dfsKids g fuel' ns 0 0 (node :: visited) longest with
        | none => none
        | some (max1, max2, visited2) =>
          some (max1 + 1,
            if max1 + max2 > longest then max1 + max2 else longest, visited2)
termination_by (fuel, 0)

/-- The for-loop of Game::dfs over the current node's neighbours,
threading the two largest child heights and the visited set. -/
def dfsKids (g : AdjList) (fuel : Nat) (ns : List Nat) (max1 max2 : Nat)
    (visited : List Nat) (longest : Nat) : Option (Nat × Nat × List Nat) :=
  match ns with
  | [] => some (max1, max2, visited)
  | n :: rest =>
    match dfs g fuel n visited longest with
    | none => none
    | some (height, _, visited2) =>
      if max1 < height then dfsKids g fuel rest height max1 visited2 longest
      else if max2 < height then
        dfsKids g fuel rest max1 height visited2 longest
      else dfsKids g fuel rest max1 max2 visited2 longest
termination_by (fuel, ns.length + 1)

end

/-- The fuel supplied to the embedded dfs: strictly larger than the
maximal possible recursion depth (one level per inserted node plus one,
with at most two graph nodes per road of the game). -/
def dfsFuel (g : Game) : Nat := 2 * g.state.roads.length + 3

/-- Game::longest_road (possible_moves.rs lines 104-109): run the dfs
from the fixed start vertex 6 with empty visited set and longest 0 and
return the longest component. -/
def longest_road (g : Game) (p : Player) : Option Nat :=
  match road_graph g p with
  | none => none
  | some gr =>
    match dfs gr (dfsFuel g) 6 [] 0 with
    | none => none
    | some (_, road_length, _) => some road_length

/-- Inner iteration of too_close_intersections: index the path table
(panic → none) and insert both endpoints. -/
def tcInner (acc2 : Option (List Nat)) (pid : Nat) : Option (List Nat) :=
  acc2.bind (fun s2 =>
    match boardPaths[pid]? with
    | none => none
    | some (ia, ib) => some (hsetInsert ib (hsetInsert ia s2)))

/-- Outer iteration of too_close_intersections: index the intersection
table at the building's intersection (panic → none) and walk its incident
paths. -/
def tcOuter (acc : Option (List Nat)) (b : Building) : Option (List Nat) :=
  acc.bind (fun s =>
    match boardIntersectionPaths[b.intersection_id]? with
    | none => none
    | some pids => pids.foldl tcInner (some s))

/-- Game::too_close_intersections (possible_moves.rs lines 213-229): both
endpoints of every path incident to an intersection that carries any
building; indexing with an out-of-range id is a Rust panic (none). -/
def too_close_intersections (g : Game) : Option (List Nat) :=
  g.state.buildings.foldl tcOuter (some [])

/-- One iteration of possible_building_intersections over the player's
roads: insert each endpoint unless it is too close. -/
def pbiStep (tc : List Nat) (p : Player) (acc : Option (List Nat))
    (road : Road) : Option (List Nat) :=
  acc.bind (fun s =>
    if road.player = p then
      match boardPaths[road.id]? with
      | none => none
      | some (ia, ib) =>
        let s1 := if ia ∈ tc then s else hsetInsert ia s
        some (if ib ∈ tc then s1 else hsetInsert ib s1)
    else some s)

/-- Game::possible_building_intersections (possible_moves.rs lines
141-154): endpoints of the player's roads that are not too close to an
existing building. -/
def possible_building_intersections (g : Game) (p : Player) :
    Option (List Nat) :=
  (too_close_intersections g).bind (fun tc =>
    g.state.roads.foldl (pbiStep tc p) (some []))

/-- The leaf scan of Game::possible_road_paths (lines 183-191): vertices
with exactly one incident owned edge (leaf_possible) and the far
endpoints of those single edges (leaf_already_made). -/
def leafSets (gr : AdjList) : List Nat × List Nat :=
  gr.foldl
    (fun lp_lam kv =>
      match kv with
      | (k, vs) =>
        match vs with
        | [v] => (hsetInsert k lp_lam.1, hsetInsert v lp_lam.2)
        | _ => lp_lam)
    ([], [])

/-- Game::possible_road_paths (possible_moves.rs lines 181-205). -/
def possible_road_paths (g : Game) (p : Player) :
    Option (List (Nat × Nat)) :=
  (road_graph g p).map (fun gr =>
    let lp := (leafSets gr).1
    let lam := (leafSets gr).2
    boardPaths.foldl
      (fun s ab =>
        match ab with
        | (a, b) =>
          let s1 := if a ∈ lp ∧ b ∉ lam then hsetInsert (a, b) s else s
          if b ∈ lp ∧ a ∉ lam then hsetInsert (a, b) s1 else s1)
      [])

/-! ## Text codec (encoding.rs) -/

/-- The TEMPLATE constant of encoding.rs (lines 19-30), reproduced
verbatim: a leading newline followed by eleven board lines. -/
def TEMPLATE : String :=
  "\n          BB * BB * BB * BB * BB * BB * BB" ++
  "\n          *   TTTT  *   TTTT  *   TTTT  *" ++
  "\n     BB * BB * BB * BB * BB * BB * BB * BB * BB" ++
  "\n     *   TTTT  *   TTTT  *   TTTT  *   TTTT  *" ++
  "\nBB * BB * BB * BB * BB * BB * BB * BB * BB * BB * BB" ++
  "\n*   TTTT  *   TTTT  *   TTTT  *   TTTT  *   TTTT  *" ++
  "\nBB * BB * BB * BB * BB * BB * BB * BB * BB * BB * BB" ++
  "\n     *   TTTT  *   TTTT  *   TTTT  *   TTTT  *" ++
  "\n     BB * BB * BB * BB * BB * BB * BB * BB * BB" ++
  "\n          *   TTTT  *   TTTT  *   TTTT  *" ++
  "\n          BB * BB * BB * BB * BB * BB * BB"

/-- Decode failures: `invalid` models a returned Err (&'static str),
`panicked` models a Rust panic (unwrap/expect/index out of bounds). -/
inductive DecodeErr where
  | invalid (msg : String)
  | panicked (msg : String)
deriving DecidableEq, Repr

instance : DecidableEq (Except DecodeErr Game) := fun a b =>
  match a, b with
  | .ok x, .ok y =>
    if h : x = y then .isTrue (by rw [h])
    else .isFalse (fun hc => h (Except.ok.inj hc))
  | .error e, .error f =>
    if h : e = f then .isTrue (by rw [h])
    else .isFalse (fun hc => h (Except.error.inj hc))
  | .ok _, .error _ => .isFalse (fun hc => Except.noConfusion hc)
  | .error _, .ok _ => .isFalse (fun hc => Except.noConfusion hc)

/-- str::lines: split at newline, strip a trailing carriage return from
each piece, and drop the final piece when it is empty (trailing line
ending is optional). -/
def rustLines (s : List Char) : List (List Char) :=
  let ps := (s.splitOn '\n').map
    (fun l => if l.getLast? = some '\r' then l.dropLast else l)
  match ps.getLast? with
  | some [] => ps.dropLast
  | _ => ps

/-- Whitespace as used by trim_end / split_whitespace on the ASCII
inputs of this codec. -/
def isWs (c : Char) : Bool := c = ' ' || c = '\t' || c = '\r' || c = '\n'

/-- str::trim_end. -/
def trimEnd (l : List Char) : List Char :=
  ((l.reverse).dropWhile isWs).reverse

/-- One line of the template scan of TryFrom<String> (encoding.rs lines
226-238): positions of building (BB), tile (TTTT) and road (*) tokens. -/
def scanB (cs : List Char) : List Nat :=
  (List.range cs.length).filter
    (fun i => cs[i]? = some 'B' && cs[i + 1]? = some 'B')

def scanT (cs : List Char) : List Nat :=
  (List.range cs.length).filter
    (fun i => cs[i]? = some 'T' && cs[i + 1]? = some 'T' &&
      cs[i + 2]? = some 'T' && cs[i + 3]? = some 'T')

def scanR (cs : List Char) : List Nat :=
  (List.range cs.length).filter (fun i => cs[i]? = some '*')

/-- The trimmed template lines (TEMPLATE.lines() with trim_end). -/
def templateLines : List (List Char) :=
  (rustLines TEMPLATE.data).map trimEnd

/-- building_coordinates of the decoder. -/
def building_coordinates : List (List Nat) := templateLines.map scanB

/-- tile_coordinates of the decoder. -/
def tile_coordinates : List (List Nat) := templateLines.map scanT

/-- road_coordinates of the decoder. -/
def road_coordinates : List (List Nat) := templateLines.map scanR

/-- TryFrom<char> for Player (board.rs lines 58-69). -/
def playerOfChar (c : Char) : Option Player :=
  if c = 'R' then some .Red
  else if c = 'B' then some .Blue
  else if c = 'W' then some .White
  else none

/-- From<Player> for char (encoding.rs lines 154-162). -/
def playerChar (p : Player) : Char :=
  match p with
  | .Red => 'R'
  | .Blue => 'B'
  | .White => 'W'

/-- TryFrom<char> for BuildingKind (encoding.rs lines 129-138). -/
def buildingKindOfChar (c : Char) : Option BuildingKind :=
  if c = 'S' then some .Settlement
  else if c = 'C' then some .City
  else none

/-- BuildingKind rendering used by the encoder (encoding.rs 411-414). -/
def buildingKindChar (k : BuildingKind) : Char :=
  match k with
  | .Settlement => 'S'
  | .City => 'C'

/-- TryFrom<char> for TileKind (encoding.rs lines 94-108). -/
def tileKindOfChar (c : Char) : Option TileKind :=
  if c = 'G' then some .Grain
  else if c = 'W' then some .Wool
  else if c = 'B' then some .Brick
  else if c = 'L' then some .Lumber
  else if c = 'O' then some .Ore
  else if c = 'N' then some .Nothing
  else none

/-- From<TileKind> for char (encoding.rs lines 49-60). -/
def tileKindChar (k : TileKind) : Char :=
  match k with
  | .Grain => 'G'
  | .Wool => 'W'
  | .Brick => 'B'
  | .Lumber => 'L'
  | .Ore => 'O'
  | .Nothing => 'N'

/-- Value of a decimal digit character. -/
def digitVal (c : Char) : Nat := c.toNat - '0'.toNat

/-- Rust u8::from_str: an optional leading plus sign, then one or more
decimal digits, value at most 255. -/
def parseU8 (cs : List Char) : Option Nat :=
  let ds := match cs with
    | '+' :: rest => rest
    | _ => cs
  if ds = [] then none
  else if ds.all Char.isDigit then
    let v := ds.foldl (fun a c => a * 10 + digitVal c) 0
    if v ≤ 255 then some v else none
  else none

/-- Rust usize::from_str (64-bit): optional plus sign, digits, bounded
by 2^64. -/
def parseUsize (cs : List Char) : Option Nat :=
  let ds := match cs with
    | '+' :: rest => rest
    | _ => cs
  if ds = [] then none
  else if ds.all Char.isDigit then
    let v := ds.foldl (fun a c => a * 10 + digitVal c) 0
    if v < 2 ^ 64 then some v else none
  else none

/-- Accumulator-based scanner for split_whitespace: collect the current
token (reversed) and emit it at each whitespace run or at the end. -/
def splitWsGo : List Char → List Char → List (List Char)
  | [], acc => if acc = [] then [] else [acc.reverse]
  | c :: rest, acc =>
    if isWs c then
      if acc = [] then splitWsGo rest []
      else acc.reverse :: splitWsGo rest []
    else splitWsGo rest (c :: acc)

/-- str::split_whitespace: maximal whitespace-free runs, in order. -/
def splitWs (l : List Char) : List (List Char) := splitWsGo l []

/-- Inner loop of the building stage of TryFrom<String> (encoding.rs
lines 249-266): read the two slot characters (index panic when the line
is too short), skip the slot when the first character is `o`, otherwise
convert kind then player (returned Err on unknown letters); the running
id counts every slot. -/
def decodeBuildingSlots (chars : List Char) (coords : List Nat) (id : Nat)
    (acc : List Building) : Except DecodeErr (List Building × Nat) :=
  match coords with
  | [] => .ok (acc, id)
  | c :: rest =>
    match chars[c]? with
    | none => .error (.panicked "index out of bounds")
    | some first =>
      match chars[c + 1]? with
      | none => .error (.panicked "index out of bounds")
      | some second =>
        if first = 'o' then decodeBuildingSlots chars rest (id + 1) acc
        else
          match buildingKindOfChar second with
          | none => .error (.invalid "Invalid character for BuildingKind")
          | some k =>
            match playerOfChar first with
            | none => .error (.invalid "Invalid character for Player")
            | some p =>
              decodeBuildingSlots chars rest (id + 1) (acc ++ [⟨id, k, p⟩])

/-- Outer loop of the building stage: fetch input line i
(board_str.lines().nth(i).unwrap(), panic when missing). -/
def decodeBuildingLines (inLines : List (List Char))
    (coordLines : List (List Nat)) (i : Nat) (id : Nat)
    (acc : List Building) : Except DecodeErr (List Building) :=
  match coordLines with
  | [] => .ok acc
  | coords :: rest =>
    match inLines[i]? with
    | none => .error (.panicked "unwrap on None")
    | some chars =>
      match decodeBuildingSlots chars coords id acc with
      | .error e => .error e
      | .ok (acc2, id2) => decodeBuildingLines inLines rest (i + 1) id2 acc2

/-- Inner loop of the road stage (encoding.rs lines 269-284). -/
def decodeRoadSlots (chars : List Char) (coords : List Nat) (id : Nat)
    (acc : List Road) : Except DecodeErr (List Road × Nat) :=
  match coords with
  | [] => .ok (acc, id)
  | c :: rest =>
    match chars[c]? with
    | none => .error (.panicked "index out of bounds")
    | some first =>
      if first = '.' then decodeRoadSlots chars rest (id + 1) acc
      else
        match playerOfChar first with
        | none => .error (.invalid "Invalid character for Player")
        | some p => decodeRoadSlots chars rest (id + 1) (acc ++ [⟨id, p⟩])

/-- Outer loop of the road stage. -/
def decodeRoadLines (inLines : List (List Char))
    (coordLines : List (List Nat)) (i : Nat) (id : Nat) (acc : List Road) :
    Except DecodeErr (List Road) :=
  match coordLines with
  | [] => .ok acc
  | coords :: rest =>
    match inLines[i]? with
    | none => .error (.panicked "unwrap on None")
    | some chars =>
      match decodeRoadSlots chars coords id acc with
      | .error e => .error e
      | .ok (acc2, id2) => decodeRoadLines inLines rest (i + 1) id2 acc2

/-- Inner loop of the tile stage (encoding.rs lines 287-307): read the
four slot characters, record the robber when the fourth is `!`, convert
the kind (returned Err on unknown letter), then parse the two dice
characters as a u8 (expect panic on failure). -/
def decodeTileSlots (chars : List Char) (coords : List Nat) (id : Nat)
    (acc : List Tile) (robber : Option Nat) :
    Except DecodeErr (List Tile × Option Nat × Nat) :=
  match coords with
  | [] => .ok (acc, robber, id)
  | c :: rest =>
    match chars[c]?, chars[c + 1]?, chars[c + 2]?,
        chars[c + 3]? with
    | some first, some second, some third, some fourth =>
      let robber2 := if fourth = '!' then some id else robber
      match tileKindOfChar third with
      | none => .error (.invalid "Invalid character for TileKind")
      | some kind =>
        match parseU8 [first, second] with
        | none => .error (.panicked "Invalid tile dice number")
        | some dice =>
          decodeTileSlots chars rest (id + 1) (acc ++ [⟨dice, kind⟩]) robber2
    | _, _, _, _ => .error (.panicked "index out of bounds")

/-- Outer loop of the tile stage. -/
def decodeTileLines (inLines : List (List Char))
    (coordLines : List (List Nat)) (i : Nat) (id : Nat) (acc : List Tile)
    (robber : Option Nat) :
    Except DecodeErr (List Tile × Option Nat) :=
  match coordLines with
  | [] => .ok (acc, robber)
  | coords :: rest =>
    match inLines[i]? with
    | none => .error (.panicked "unwrap on None")
    | some chars =>
      match decodeTileSlots chars coords id acc robber with
      | .error e => .error e
      | .ok (acc2, robber2, id2) =>
        decodeTileLines inLines rest (i + 1) id2 acc2 robber2

/-- The filter picking the resource-count lines (encoding.rs lines
309-311): every input line whose first character is W, B or R, in input
order. -/
def filteredResourceLines (s : List Char) : List (List Char) :=
  (rustLines s).filter
    (fun l => l.head? = some 'W' || l.head? = some 'B' || l.head? = some 'R')

/-- split_whitespace().skip(1).map(parse::<usize>().unwrap()).collect,
with the parse unwrap panicking on a non-numeric token. -/
def parseCountTokens (toks : List (List Char)) :
    Except DecodeErr (List Nat) :=
  match toks with
  | [] => .ok []
  | t :: rest =>
    match parseUsize t with
    | none => .error (.panicked "unwrap on Err")
    | some v =>
      match parseCountTokens rest with
      | .error e => .error e
      | .ok vs => .ok (v :: vs)

/-- Parse one resource line into its numeric values. -/
def parseCountsLine (l : List Char) : Except DecodeErr (List Nat) :=
  parseCountTokens ((splitWs l).drop 1)

/-- Vec indexing (panics when out of range). -/
def vecIndex (l : List Nat) (i : Nat) : Except DecodeErr Nat :=
  match l[i]? with
  | none => .error (.panicked "index out of bounds")
  | some v => .ok v

/-- Build one ResourceCount from a parsed value vector by indexing
positions 0..4 (order grain, wool, brick, lumber, ore); the source stores
the parsed usize values into the i8 fields of ResourceCount, modelled
as the corresponding integers. -/
def resourceCountOfVec (l : List Nat) : Except DecodeErr ResourceCount := do
  let g ← vecIndex l 0
  let w ← vecIndex l 1
  let b ← vecIndex l 2
  let lu ← vecIndex l 3
  let o ← vecIndex l 4
  .ok ⟨(g : Int), (w : Int), (b : Int), (lu : Int), (o : Int)⟩

/-- The resource stage of the decoder (encoding.rs lines 309-341):
resource_lines[0] is parsed as White's counts, [1] as Red's, [2] as
Blue's — assignment is positional over the filtered lines. -/
def decodeResourceVecs (s : List Char) :
    Except DecodeErr (List Nat × List Nat × List Nat) :=
  let rls := filteredResourceLines s
  match rls[0]? with
  | none => .error (.panicked "index out of bounds")
  | some lw =>
    match parseCountsLine lw with
    | .error e => .error e
    | .ok wv =>
      match rls[1]? with
      | none => .error (.panicked "index out of bounds")
      | some lr =>
        match parseCountsLine lr with
        | .error e => .error e
        | .ok rv =>
          match rls[2]? with
          | none => .error (.panicked "index out of bounds")
          | some lb =>
            match parseCountsLine lb with
            | .error e => .error e
            | .ok bv => .ok (wv, rv, bv)

/-- TryFrom<String> for Game (encoding.rs lines 214-353): scan the
template for slot coordinates, check the slot counts (assert), decode
buildings, roads and tiles (with robber marker), parse the resource
lines, rebuild the board (19-tile check) and unwrap the robber. -/
def decodeGame (s : List Char) : Except DecodeErr Game :=
  let inLines := rustLines s
  if (building_coordinates.map List.length).sum ≠ INTERSECTIONS then
    .error (.panicked "assertion failed")
  else if (tile_coordinates.map List.length).sum ≠ TILES then
    .error (.panicked "assertion failed")
  else if (road_coordinates.map List.length).sum ≠ PATHS then
    .error (.panicked "assertion failed")
  else
    match decodeBuildingLines inLines building_coordinates 0 0 [] with
    | .error e => .error e
    | .ok buildings =>
      match decodeRoadLines inLines road_coordinates 0 0 [] with
      | .error e => .error e
      | .ok roads =>
        match decodeTileLines inLines tile_coordinates 0 0 [] none with
        | .error e => .error e
        | .ok tr =>
          match decodeResourceVecs s with
          | .error e => .error e
          | .ok vecs =>
            if tr.1.length = 19 then
              match resourceCountOfVec vecs.2.1 with
              | .error e => .error e
              | .ok red =>
                match resourceCountOfVec vecs.2.2 with
                | .error e => .error e
                | .ok blue =>
                  match resourceCountOfVec vecs.1 with
                  | .error e => .error e
                  | .ok white =>
                    match tr.2 with
                    | none => .error (.panicked "unwrap on None")
                    | some rb =>
                      .ok ⟨tr.1, ⟨buildings, roads, rb, ⟨red, blue, white⟩⟩⟩
            else .error (.panicked "The board has not exactly 19 tiles")

/-- List-of-chars version of str::starts_with for a pattern list. -/
def leadsWith : List Char → List Char → Bool
  | [], _ => true
  | _ :: _, [] => false
  | p :: ps, c :: cs => p = c && leadsWith ps cs

/-- String::replacen(pat, rep, 1): replace the first occurrence of pat
by rep, or leave the string unchanged when there is none. -/
def replacen1 (pat rep : List Char) : List Char → List Char
  | [] => []
  | c :: rest =>
    if leadsWith pat (c :: rest) then rep ++ (c :: rest).drop pat.length
    else c :: replacen1 pat rep rest

/-- format!("{:02}", n): decimal digits zero-padded to width two. -/
def twoDigits (n : Nat) : List Char :=
  let ds := Nat.toDigits 10 n
  if ds.length < 2 then '0' :: ds else ds

/-- HashMap lookup for the building map of the encoder: entries are
inserted in list order, so a later building with the same id wins. -/
def findLastBuilding (bs : List Building) (i : Nat) : Option Building :=
  bs.foldl (fun acc b => if b.intersection_id = i then some b else acc) none

/-- HashMap lookup for the road map of the encoder. -/
def findLastRoad (rs : List Road) (i : Nat) : Option Road :=
  rs.foldl (fun acc r => if r.id = i then some r else acc) none

/-- From<Game> for String (encoding.rs lines 388-438): start from the
template and use replacen to substitute, in this order, all 19 tile
tokens, all 54 building tokens, all 72 road tokens. -/
def encodeGame (g : Game) : List Char :=
  let afterTiles := g.tiles.enum.foldl
    (fun out it =>
      replacen1 "TTTT".data
        (twoDigits it.2.dice ++ [tileKindChar it.2.kind,
          if it.1 = g.state.robber then '!' else ' '])
        out)
    TEMPLATE.data
  let afterBuildings := (List.range INTERSECTIONS).foldl
    (fun out i =>
      replacen1 "BB".data
        (match findLastBuilding g.state.buildings i with
          | none => ['o', 'o']
          | some b => [playerChar b.player, buildingKindChar b.kind])
        out)
    afterTiles
  (List.range PATHS).foldl
    (fun out i =>
      replacen1 ['*']
        (match findLastRoad g.state.roads i with
          | none => ['.']
          | some r => [playerChar r.player])
        out)
    afterBuildings

/-! ## Sample board states from the repository's tests

The modular decoder of encoding.rs demands three resource-count lines, so
the resource-less board texts of possible_moves.rs are modelled as the
states their slots denote (verified against decodeBuildingLines /
decodeRoadLines / decodeTileLines on the literal test strings); resources
are zero and are never read by any move-derivation function. -/

def zeroRC : ResourceCount := ⟨0, 0, 0, 0, 0⟩

/-- The 19 tiles shared by every sample board text. -/
def sampleTiles : List Tile :=
  [⟨10, .Ore⟩, ⟨2, .Wool⟩, ⟨9, .Lumber⟩, ⟨12, .Grain⟩, ⟨6, .Brick⟩,
   ⟨4, .Wool⟩, ⟨10, .Brick⟩, ⟨9, .Grain⟩, ⟨11, .Lumber⟩, ⟨0, .Nothing⟩,
   ⟨3, .Lumber⟩, ⟨8, .Ore⟩, ⟨8, .Lumber⟩, ⟨3, .Ore⟩, ⟨4, .Grain⟩,
   ⟨5, .Wool⟩, ⟨5, .Brick⟩, ⟨6, .Grain⟩, ⟨11, .Wool⟩]

/-- Buildings of the sample board (slots of the test strings). -/
def sampleBuildings : List Building :=
  [⟨10, .Settlement, .Red⟩, ⟨13, .Settlement, .Blue⟩,
   ⟨19, .Settlement, .White⟩, ⟨29, .Settlement, .Red⟩,
   ⟨35, .Settlement, .White⟩, ⟨40, .Settlement, .Red⟩,
   ⟨44, .Settlement, .Red⟩]

/-- Roads of the board text of test_possible_possible_road_paths and
test_possible_building_intersections. -/
def sampleMovesRoads : List Road :=
  [⟨4, .White⟩, ⟨5, .White⟩, ⟨9, .White⟩, ⟨13, .Red⟩, ⟨15, .Blue⟩,
   ⟨16, .White⟩, ⟨21, .White⟩, ⟨25, .White⟩, ⟨30, .White⟩, ⟨37, .White⟩,
   ⟨41, .Red⟩, ⟨47, .White⟩, ⟨52, .Blue⟩, ⟨53, .White⟩, ⟨56, .Blue⟩]

/-- Roads of the board text of test_longest_road (same minus the white
roads 47 and 53). -/
def sampleLongestRoads : List Road :=
  [⟨4, .White⟩, ⟨5, .White⟩, ⟨9, .White⟩, ⟨13, .Red⟩, ⟨15, .Blue⟩,
   ⟨16, .White⟩, ⟨21, .White⟩, ⟨25, .White⟩, ⟨30, .White⟩, ⟨37, .White⟩,
   ⟨41, .Red⟩, ⟨52, .Blue⟩, ⟨56, .Blue⟩]

/-- The sample board state of the possible-road-paths and
possible-building-intersections tests. -/
def sampleMovesGame : Game :=
  ⟨sampleTiles,
    ⟨sampleBuildings, sampleMovesRoads, 7, ⟨zeroRC, zeroRC, zeroRC⟩⟩⟩

/-- The sample board state of the longest-road test. -/
def sampleLongestGame : Game :=
  ⟨sampleTiles,
    ⟨sampleBuildings, sampleLongestRoads, 7, ⟨zeroRC, zeroRC, zeroRC⟩⟩⟩

/-- Success test for a decode result. -/
def isOkE (e : Except DecodeErr Game) : Bool :=
  match e with
  | .ok _ => true
  | .error _ => false

/-- Panic test for a decode result. -/
def isPanicE (e : Except DecodeErr Game) : Bool :=
  match e with
  | .error (.panicked _) => true
  | _ => false

/-- Returned-Err test for a decode result. -/
def isInvalidE (e : Except DecodeErr Game) : Bool :=
  match e with
  | .error (.invalid _) => true
  | _ => false

/-- The board text of test_parse_state (resources.rs lines 138-155): the
longest-road board followed by three resource-count lines. -/
def sampleResourceInput : String :=
  "\n          oo . oo . oo . oo . oo W oo W oo" ++
  "\n          .   10O   .   02W   .   09L   W" ++
  "\n     oo . oo . oo . RS R oo . oo B BS W oo . oo" ++
  "\n     .   12G   .   06B   .   04W   W   10B   ." ++
  "\noo . oo . oo W WS . oo . oo . oo . oo W oo . oo . oo" ++
  "\n.   09G!  .   11L   .   00N   .   03L   W   08O   ." ++
  "\noo . oo . RS R oo . oo . oo . oo . oo . WS . oo . oo" ++
  "\n     .   08L   .   03O   .   04G   B   05W   ." ++
  "\n     oo . oo . RS B oo . oo . oo . RS . oo . oo" ++
  "\n          .   05B   .   06G   .   11W   ." ++
  "\n          oo . oo . oo . oo . oo . oo . oo" ++
  "\n   G  W  B  L  O" ++
  "\nW  1  2  3  4  5  " ++
  "\nR  6  7  8  9  10 " ++
  "\nB  11 12 13 14 15"

/-- sampleResourceInput with the three resource-count lines reordered to
R, W, B; the lines themselves are unchanged. -/
def reorderedResourceInput : String :=
  "\n          oo . oo . oo . oo . oo W oo W oo" ++
  "\n          .   10O   .   02W   .   09L   W" ++
  "\n     oo . oo . oo . RS R oo . oo B BS W oo . oo" ++
  "\n     .   12G   .   06B   .   04W   W   10B   ." ++
  "\noo . oo . oo W WS . oo . oo . oo . oo W oo . oo . oo" ++
  "\n.   09G!  .   11L   .   00N   .   03L   W   08O   ." ++
  "\noo . oo . RS R oo . oo . oo . oo . oo . WS . oo . oo" ++
  "\n     .   08L   .   03O   .   04G   B   05W   ." ++
  "\n     oo . oo . RS B oo . oo . oo . RS . oo . oo" ++
  "\n          .   05B   .   06G   .   11W   ." ++
  "\n          oo . oo . oo . oo . oo . oo . oo" ++
  "\n   G  W  B  L  O" ++
  "\nR  6  7  8  9  10 " ++
  "\nW  1  2  3  4  5  " ++
  "\nB  11 12 13 14 15"

/-- sampleResourceInput with the first tile slot changed from dice text
"10" to "+9": its two dice characters are not both numeric. -/
def plusDiceInput : String :=
  "\n          oo . oo . oo . oo . oo W oo W oo" ++
  "\n          .   +9O   .   02W   .   09L   W" ++
  "\n     oo . oo . oo . RS R oo . oo B BS W oo . oo" ++
  "\n     .   12G   .   06B   .   04W   W   10B   ." ++
  "\noo . oo . oo W WS . oo . oo . oo . oo W oo . oo . oo" ++
  "\n.   09G!  .   11L   .   00N   .   03L   W   08O   ." ++
  "\noo . oo . RS R oo . oo . oo . oo . oo . WS . oo . oo" ++
  "\n     .   08L   .   03O   .   04G   B   05W   ." ++
  "\n     oo . oo . RS B oo . oo . oo . RS . oo . oo" ++
  "\n          .   05B   .   06G   .   11W   ." ++
  "\n          oo . oo . oo . oo . oo . oo . oo" ++
  "\n   G  W  B  L  O" ++
  "\nW  1  2  3  4  5  " ++
  "\nR  6  7  8  9  10 " ++
  "\nB  11 12 13 14 15"

/-- sampleResourceInput with the robber marker removed (the `!` after
"09G" replaced by a space): no tile slot carries the marker. -/
def noBangInput : String :=
  "\n          oo . oo . oo . oo . oo W oo W oo" ++
  "\n          .   10O   .   02W   .   09L   W" ++
  "\n     oo . oo . oo . RS R oo . oo B BS W oo . oo" ++
  "\n     .   12G   .   06B   .   04W   W   10B   ." ++
  "\noo . oo . oo W WS . oo . oo . oo . oo W oo . oo . oo" ++
  "\n.   09G   .   11L   .   00N   .   03L   W   08O   ." ++
  "\noo . oo . RS R oo . oo . oo . oo . oo . WS . oo . oo" ++
  "\n     .   08L   .   03O   .   04G   B   05W   ." ++
  "\n     oo . oo . RS B oo . oo . oo . RS . oo . oo" ++
  "\n          .   05B   .   06G   .   11W   ." ++
  "\n          oo . oo . oo . oo . oo . oo . oo" ++
  "\n   G  W  B  L  O" ++
  "\nW  1  2  3  4  5  " ++
  "\nR  6  7  8  9  10 " ++
  "\nB  11 12 13 14 15"

/-- The game that test_parse1 (encoding.rs lines 447-534) builds and then
round-trips through From<Game> and TryFrom<String>. -/
def testGame1 : Game :=
  ⟨sampleTiles,
    ⟨[⟨10, .Settlement, .Red⟩, ⟨13, .Settlement, .Blue⟩,
      ⟨19, .Settlement, .White⟩, ⟨35, .Settlement, .White⟩,
      ⟨29, .Settlement, .Red⟩, ⟨40, .Settlement, .Red⟩,
      ⟨44, .Settlement, .Red⟩],
     [⟨13, .Red⟩, ⟨15, .Blue⟩, ⟨37, .White⟩, ⟨41, .Red⟩,
      ⟨56, .Blue⟩, ⟨52, .Blue⟩],
     7,
     ⟨⟨2, 3, 4, 1, 1⟩, ⟨0, 1, 2, 3, 4⟩, ⟨1, 2, 3, 4, 5⟩⟩⟩⟩

/-- The state that sampleResourceInput denotes. -/
def sampleResourceGame : Game :=
  ⟨sampleTiles,
    ⟨sampleBuildings, sampleLongestRoads, 7,
      ⟨⟨6, 7, 8, 9, 10⟩, ⟨11, 12, 13, 14, 15⟩, ⟨1, 2, 3, 4, 5⟩⟩⟩⟩

/-- Number of slots of one width-w coordinate table that the input text
actually carries: the slot on line i at column c is present when line i
exists and reaches past column c + w - 1 (the columns the decoder
reads). -/
def countSlots (inLines : List (List Char)) (cls : List (List Nat))
    (i w : Nat) : Nat :=
  match cls with
  | [] => 0
  | coords :: rest =>
    (match inLines[i]? with
     | none => 0
     | some line => (coords.filter (fun c => c + w ≤ line.length)).length) +
    countSlots inLines rest (i + 1) w

/-- The count of building slots an input text carries. -/
def buildingSlotCount (s : List Char) : Nat :=
  countSlots (rustLines s) building_coordinates 0 2

/-- The count of tile slots an input text carries. -/
def tileSlotCount (s : List Char) : Nat :=
  countSlots (rustLines s) tile_coordinates 0 4

/-- The count of road slots an input text carries. -/
def roadSlotCount (s : List Char) : Nat :=
  countSlots (rustLines s) road_coordinates 0 1

/-- The character of input line j at column k. -/
def tileRead (s : List Char) (j k : Nat) : Option Char :=
  ((rustLines s)[j]?).bind (fun l => l[k]?)

/-- The two dice characters of the tile slot on line j at column c exist
but do not parse as a u8. -/
def badDiceAt (s : List Char) (j c : Nat) : Bool :=
  match tileRead s j c, tileRead s j (c + 1) with
  | some a, some b => (parseU8 [a, b]).isNone
  | _, _ => false

/-- No tile slot of the text carries the robber marker `!` in its fourth
character. -/
def noRobberMarker (s : List Char) : Bool :=
  (List.range tile_coordinates.length).all (fun j =>
    (tile_coordinates[j]?.getD []).all (fun c =>
      !(tileRead s j (c + 3) == some '!')))

/-- Some tile slot of the text has unparseable dice characters. -/
def hasBadDiceSlot (s : List Char) : Bool :=
  (List.range tile_coordinates.length).any (fun j =>
    (tile_coordinates[j]?.getD []).any (fun c => badDiceAt s j c))

/-- The state reorderedResourceInput denotes: the same board, White and
Red counts swapped relative to sampleResourceGame. -/
def reorderedResourceGame : Game :=
  ⟨sampleTiles,
    ⟨sampleBuildings, sampleLongestRoads, 7,
      ⟨⟨1, 2, 3, 4, 5⟩, ⟨11, 12, 13, 14, 15⟩, ⟨6, 7, 8, 9, 10⟩⟩⟩⟩

/-- The state plusDiceInput denotes: tile 0 has dice 9. -/
def plusDiceGame : Game :=
  ⟨⟨9, .Ore⟩ :: sampleTiles.tail, sampleResourceGame.state⟩

/-- The board part of sampleResourceInput: its first twelve lines,
without the resource-count lines. -/
def sampleBoardPart : String :=
  "\n          oo . oo . oo . oo . oo W oo W oo" ++
  "\n          .   10O   .   02W   .   09L   W" ++
  "\n     oo . oo . oo . RS R oo . oo B BS W oo . oo" ++
  "\n     .   12G   .   06B   .   04W   W   10B   ." ++
  "\noo . oo . oo W WS . oo . oo . oo . oo W oo . oo . oo" ++
  "\n.   09G!  .   11L   .   00N   .   03L   W   08O   ." ++
  "\noo . oo . RS R oo . oo . oo . oo . oo . WS . oo . oo" ++
  "\n     .   08L   .   03O   .   04G   B   05W   ." ++
  "\n     oo . oo . RS B oo . oo . oo . RS . oo . oo" ++
  "\n          .   05B   .   06G   .   11W   ." ++
  "\n          oo . oo . oo . oo . oo . oo . oo"

/-- The encoding of testGame1: a board text with no resource-count
lines. -/
def encodedTestGame1 : String :=
  "\n          oo . oo . oo . oo . oo . oo . oo" ++
  "\n          .   10O   .   02W   .   09L   ." ++
  "\n     oo . oo . oo . RS R oo . oo B BS . oo . oo" ++
  "\n     .   12G   .   06B   .   04W   .   10B   ." ++
  "\noo . oo . oo . WS . oo . oo . oo . oo . oo . oo . oo" ++
  "\n.   09G!  .   11L   .   00N   .   03L   W   08O   ." ++
  "\noo . oo . RS R oo . oo . oo . oo . oo . WS . oo . oo" ++
  "\n     .   08L   .   03O   .   04G   B   05W   ." ++
  "\n     oo . oo . RS B oo . oo . oo . RS . oo . oo" ++
  "\n          .   05B   .   06G   .   11W   ." ++
  "\n          oo . oo . oo . oo . oo . oo . oo"

/-- C6: on the sample board state as laid out in the test board (White
settlements at intersections 19 and 35, White roads on paths 4, 5, 9, 16,
21, 25, 30, 37, 47 and 53, plus the red and blue pieces of the text),
possible_road_paths for White returns exactly the 6-edge set
(19,20), (18,29), (3,4), (17,18), (4,12), (9,19). -/
theorem C6_possible_road_paths_sample :
    ∃ l, possible_road_paths sampleMovesGame .White = some l ∧
      l.Perm [(19, 20), (18, 29), (3, 4), (17, 18), (4, 12), (9, 19)] := by
  refine ⟨[(18, 29), (19, 20), (17, 18), (9, 19), (4, 12), (3, 4)],
    by decide, by decide⟩

/-! ## Lemmas for claim C10: the dfs panics when vertex 6 is not a key -/

theorem lookupAdj_nil (k : Nat) : lookupAdj [] k = none := rfl

theorem lookupAdj_entryPush_none (g : AdjList) (a b k : Nat) :
    lookupAdj (entryPush g a b) k = none ↔
      lookupAdj g k = none ∧ k ≠ a := by
  induction g with
  | nil =>
    simp only [entryPush, lookupAdj]
    by_cases h : k = a <;> simp [h]
  | cons hd tl ih =>
    obtain ⟨k2, vs⟩ := hd
    simp only [entryPush]
    by_cases ha : a = k2
    · subst ha
      simp only [lookupAdj]
      by_cases hk : k = a <;> simp [hk]
    · simp only [if_neg ha, lookupAdj]
      by_cases hk : k = k2 <;> simp [hk, ih]

theorem roadGraph_fold_none (p : Player) :
    ∀ roads : List Road, roads.foldl (roadGraphStep p) none = none := by
  intro roads
  induction roads with
  | nil => rfl
  | cons r rest ih =>
    have : roadGraphStep p none r = none := rfl
    rw [List.foldl_cons, this, ih]

theorem roadGraph_fold_lookup_none (p : Player) :
    ∀ (roads : List Road) (acc gr : AdjList),
      roads.foldl (roadGraphStep p) (some acc) = some gr →
      (∀ r ∈ roads, r.player = p → ∀ a b,
        boardPaths[r.id]? = some (a, b) → a ≠ 6 ∧ b ≠ 6) →
      lookupAdj acc 6 = none → lookupAdj gr 6 = none := by
  intro roads
  induction roads with
  | nil =>
    intro acc gr hfold _ hacc
    simp only [List.foldl_nil, Option.some.injEq] at hfold
    rw [← hfold]
    exact hacc
  | cons r rest ih =>
    intro acc gr hfold hno hacc
    rw [List.foldl_cons] at hfold
    by_cases hp : r.player = p
    · cases hget : boardPaths[r.id]? with
      | none =>
        rw [show roadGraphStep p (some acc) r = none by
          simp [roadGraphStep, hp, hget]] at hfold
        rw [roadGraph_fold_none p rest] at hfold
        cases hfold
      | some ab =>
        obtain ⟨a, b⟩ := ab
        have hab := hno r (List.mem_cons_self r rest) hp a b hget
        rw [show roadGraphStep p (some acc) r =
            some (entryPush (entryPush acc a b) b a) by
          simp [roadGraphStep, hp, hget]] at hfold
        refine ih _ gr hfold
          (fun r2 h2 => hno r2 (List.mem_cons_of_mem _ h2)) ?_
        rw [lookupAdj_entryPush_none, lookupAdj_entryPush_none]
        exact ⟨⟨hacc, fun h => hab.1 h.symm⟩, fun h => hab.2 h.symm⟩
    · rw [show roadGraphStep p (some acc) r = some acc by
        simp [roadGraphStep, hp]] at hfold
      exact ih _ gr hfold (fun r2 h2 => hno r2 (List.mem_cons_of_mem _ h2))
        hacc

/-- C10: for every game in which the given player owns no road having
intersection 6 as an endpoint (in particular, a player owning no roads at
all), longest_road does not return a value: the DFS rooted at vertex 6
indexes the road graph at an absent key — a Rust panic — so the error
branch of the total embedding is reached instead of a successful return
of 0. -/
theorem C10_longest_road_missing_start (g : Game) (p : Player)
    (h : ∀ r ∈ g.state.roads, r.player = p → ∀ a b,
      boardPaths[r.id]? = some (a, b) → a ≠ 6 ∧ b ≠ 6) :
    longest_road g p = none := by
  unfold longest_road
  cases hrg : road_graph g p with
  | none => rfl
  | some gr =>
    have h6 : lookupAdj gr 6 = none := by
      unfold road_graph at hrg
      exact roadGraph_fold_lookup_none p g.state.roads [] gr hrg h rfl
    obtain ⟨f, hf⟩ : ∃ f, dfsFuel g = f + 1 :=
      ⟨2 * g.state.roads.length + 2, by unfold dfsFuel; omega⟩
    rw [hf]
    have hdfs : dfs gr (f + 1) 6 [] 0 = none := by
      rw [dfs.eq_def]
      simp [h6]
    simp [hdfs]

/-- C10 witness: a game with no roads at all. -/
theorem C10_witness :
    longest_road ⟨sampleTiles, ⟨[], [], 7, ⟨zeroRC, zeroRC, zeroRC⟩⟩⟩
      .White = none :=
  C10_longest_road_missing_start _ _ (by intro r hr; cases hr)

/-! ## Lemmas for claim C7: possible_building_intersections -/

theorem mem_hsetInsert {α : Type} [DecidableEq α] (v x : α) (s : List α) :
    v ∈ hsetInsert x s ↔ v = x ∨ v ∈ s := by
  by_cases h : x ∈ s
  · simp only [hsetInsert, if_pos h]
    constructor
    · exact Or.inr
    · rintro (rfl | hv)
      · exact h
      · exact hv
  · simp [hsetInsert, if_neg h]

theorem boardPaths_get_of_lt (pid : Nat) (h : pid < 72) :
    ∃ ab, boardPaths[pid]? = some ab := by
  have hlen : pid < boardPaths.length := by
    have : boardPaths.length = 72 := by decide
    omega
  exact ⟨boardPaths[pid], List.getElem?_eq_getElem hlen⟩

theorem interPaths_bound :
    ∀ pids ∈ boardIntersectionPaths, ∀ pid ∈ pids, pid < 72 := by decide

/-- The too-close set as the claim words it: every endpoint of every
board edge incident to an intersection holding any building. -/
def SpecTooClose (g : Game) (v : Nat) : Prop :=
  ∃ b ∈ g.state.buildings, ∃ pids,
    boardIntersectionPaths[b.intersection_id]? = some pids ∧
    ∃ pid ∈ pids, ∃ ab : Nat × Nat,
      boardPaths[pid]? = some ab ∧ (v = ab.1 ∨ v = ab.2)

/-- Buildable intersections as the claim words it: an endpoint of at
least one road owned by the player that is not in the too-close set. -/
def SpecBuildable (g : Game) (p : Player) (v : Nat) : Prop :=
  (∃ r ∈ g.state.roads, r.player = p ∧ ∃ ab : Nat × Nat,
    boardPaths[r.id]? = some ab ∧ (v = ab.1 ∨ v = ab.2)) ∧
  ¬ SpecTooClose g v

theorem orShuffle1 (A B C Q : Prop) : (C ∨ B ∨ A) ∨ Q ↔ A ∨ (B ∨ C) ∨ Q := by
  tauto

theorem orShuffle2 (A X Q : Prop) : (X ∨ A) ∨ Q ↔ A ∨ X ∨ Q := by
  tauto

theorem orDropLeft (A B Q : Prop) (h : ¬ B) : A ∨ Q ↔ A ∨ (B ∨ Q) := by
  tauto

theorem pbi_insert_mem (v ia ib : Nat) (tc s : List Nat) :
    v ∈ (if ib ∈ tc then (if ia ∈ tc then s else hsetInsert ia s)
      else hsetInsert ib (if ia ∈ tc then s else hsetInsert ia s)) ↔
    ((v = ia ∧ ia ∉ tc) ∨ (v = ib ∧ ib ∉ tc)) ∨ v ∈ s := by
  by_cases h1 : ia ∈ tc <;> by_cases h2 : ib ∈ tc <;>
    simp [h1, h2, mem_hsetInsert] <;> tauto

theorem tcInner_fold (pids : List Nat) (hb : ∀ pid ∈ pids, pid < 72) :
    ∀ s, ∃ l, pids.foldl tcInner (some s) = some l ∧
      (∀ v, v ∈ l ↔ v ∈ s ∨ ∃ pid ∈ pids, ∃ ab : Nat × Nat,
        boardPaths[pid]? = some ab ∧ (v = ab.1 ∨ v = ab.2)) := by
  induction pids with
  | nil =>
    intro s
    exact ⟨s, rfl, by simp⟩
  | cons pid rest ih =>
    intro s
    obtain ⟨ab, hab⟩ := boardPaths_get_of_lt pid (hb pid (List.mem_cons_self _ _))
    have hstep : tcInner (some s) pid =
        some (hsetInsert ab.2 (hsetInsert ab.1 s)) := by
      simp [tcInner, hab]
    obtain ⟨l, hl, hchar⟩ :=
      ih (fun q hq => hb q (List.mem_cons_of_mem _ hq))
        (hsetInsert ab.2 (hsetInsert ab.1 s))
    refine ⟨l, by rw [List.foldl_cons, hstep]; exact hl, ?_⟩
    intro v
    rw [hchar v, mem_hsetInsert, mem_hsetInsert,
      List.exists_mem_cons_iff]
    have hone : (∃ ab2 : Nat × Nat, boardPaths[pid]? = some ab2 ∧
        (v = ab2.1 ∨ v = ab2.2)) ↔ (v = ab.1 ∨ v = ab.2) := by
      rw [hab]
      constructor
      · rintro ⟨ab2, h2, h3⟩
        cases h2
        exact h3
      · intro h3
        exact ⟨ab, rfl, h3⟩
    rw [hone]
    exact orShuffle1 _ _ _ _

theorem tcOuter_fold (bs : List Building)
    (hb : ∀ b ∈ bs, b.intersection_id < 54) :
    ∀ s, ∃ l, bs.foldl tcOuter (some s) = some l ∧
      (∀ v, v ∈ l ↔ v ∈ s ∨ ∃ b ∈ bs, ∃ pids,
        boardIntersectionPaths[b.intersection_id]? = some pids ∧
        ∃ pid ∈ pids, ∃ ab : Nat × Nat,
          boardPaths[pid]? = some ab ∧ (v = ab.1 ∨ v = ab.2)) := by
  induction bs with
  | nil =>
    intro s
    exact ⟨s, rfl, by simp⟩
  | cons b rest ih =>
    intro s
    have hlt : b.intersection_id < boardIntersectionPaths.length := by
      have h54 : boardIntersectionPaths.length = 54 := by decide
      have := hb b (List.mem_cons_self _ _)
      omega
    have hpids : boardIntersectionPaths[b.intersection_id]? =
        some boardIntersectionPaths[b.intersection_id] :=
      List.getElem?_eq_getElem hlt
    have hmemtbl : boardIntersectionPaths[b.intersection_id] ∈
        boardIntersectionPaths := List.getElem_mem hlt
    obtain ⟨l1, hl1, hchar1⟩ :=
      tcInner_fold boardIntersectionPaths[b.intersection_id]
        (interPaths_bound _ hmemtbl) s
    have hstep : tcOuter (some s) b = some l1 := by
      simp only [tcOuter, Option.bind, hpids]
      exact hl1
    obtain ⟨l, hl, hchar⟩ :=
      ih (fun b2 h2 => hb b2 (List.mem_cons_of_mem _ h2)) l1
    refine ⟨l, by rw [List.foldl_cons, hstep]; exact hl, ?_⟩
    intro v
    rw [hchar v, hchar1 v, List.exists_mem_cons_iff]
    have hone : (∃ pids, boardIntersectionPaths[b.intersection_id]? =
        some pids ∧ ∃ pid ∈ pids, ∃ ab : Nat × Nat,
          boardPaths[pid]? = some ab ∧ (v = ab.1 ∨ v = ab.2)) ↔
        (∃ pid ∈ boardIntersectionPaths[b.intersection_id],
          ∃ ab : Nat × Nat,
            boardPaths[pid]? = some ab ∧ (v = ab.1 ∨ v = ab.2)) := by
      rw [hpids]
      constructor
      · rintro ⟨pids, h2, h3⟩
        cases h2
        exact h3
      · intro h3
        exact ⟨_, rfl, h3⟩
    rw [hone]
    exact or_assoc

theorem pbi_fold (tc : List Nat) (p : Player) (roads : List Road)
    (hr : ∀ r ∈ roads, r.player = p → r.id < 72) :
    ∀ s, ∃ l, roads.foldl (pbiStep tc p) (some s) = some l ∧
      (∀ v, v ∈ l ↔ v ∈ s ∨ ∃ r ∈ roads, r.player = p ∧
        ∃ ab : Nat × Nat, boardPaths[r.id]? = some ab ∧
          ((v = ab.1 ∧ ab.1 ∉ tc) ∨ (v = ab.2 ∧ ab.2 ∉ tc))) := by
  induction roads with
  | nil =>
    intro s
    exact ⟨s, rfl, by simp⟩
  | cons r rest ih =>
    intro s
    by_cases hp : r.player = p
    · obtain ⟨ab, hab⟩ := boardPaths_get_of_lt r.id
        (hr r (List.mem_cons_self _ _) hp)
      have hstep : pbiStep tc p (some s) r =
          some (if ab.2 ∈ tc then (if ab.1 ∈ tc then s else hsetInsert ab.1 s)
            else hsetInsert ab.2
              (if ab.1 ∈ tc then s else hsetInsert ab.1 s)) := by
        simp [pbiStep, hp, hab]
      obtain ⟨l, hl, hchar⟩ :=
        ih (fun r2 h2 => hr r2 (List.mem_cons_of_mem _ h2)) _
      refine ⟨l, by rw [List.foldl_cons, hstep]; exact hl, ?_⟩
      intro v
      rw [hchar v, pbi_insert_mem, List.exists_mem_cons_iff]
      have hone : (r.player = p ∧ ∃ ab2 : Nat × Nat,
          boardPaths[r.id]? = some ab2 ∧
          ((v = ab2.1 ∧ ab2.1 ∉ tc) ∨ (v = ab2.2 ∧ ab2.2 ∉ tc))) ↔
          ((v = ab.1 ∧ ab.1 ∉ tc) ∨ (v = ab.2 ∧ ab.2 ∉ tc)) := by
        rw [hab]
        constructor
        · rintro ⟨_, ab2, h2, h3⟩
          cases h2
          exact h3
        · intro h3
          exact ⟨hp, ab, rfl, h3⟩
      rw [hone]
      exact orShuffle2 _ _ _
    · have hstep : pbiStep tc p (some s) r = some s := by
        simp [pbiStep, hp]
      obtain ⟨l, hl, hchar⟩ :=
        ih (fun r2 h2 => hr r2 (List.mem_cons_of_mem _ h2)) s
      refine ⟨l, by rw [List.foldl_cons, hstep]; exact hl, ?_⟩
      intro v
      rw [hchar v, List.exists_mem_cons_iff]
      exact orDropLeft _ _ _ (fun hx => hp hx.1)

/-- C7: possible_building_intersections is exactly the set of
intersections that are an endpoint of at least one road owned by the
player and are not in the too-close set (every endpoint of every board
edge incident to an intersection holding any building, which includes the
built intersections themselves); on the sample board it equals
the set of intersections 4, 5, 6 and 46. -/
theorem C7_possible_building_intersections :
    (∀ (g : Game) (p : Player),
      (∀ b ∈ g.state.buildings, b.intersection_id < 54) →
      (∀ r ∈ g.state.roads, r.player = p → r.id < 72) →
      ∃ l, possible_building_intersections g p = some l ∧
        ∀ v, v ∈ l ↔ SpecBuildable g p v) ∧
    (∃ l, possible_building_intersections sampleMovesGame .White = some l ∧
      l.Perm [4, 5, 6, 46]) := by
  constructor
  · intro g p hb hr
    obtain ⟨tcl, htcl, htcchar⟩ := tcOuter_fold g.state.buildings hb []
    obtain ⟨l, hl, hchar⟩ := pbi_fold tcl p g.state.roads hr []
    refine ⟨l, ?_, ?_⟩
    · rw [possible_building_intersections, too_close_intersections, htcl,
        Option.bind]
      exact hl
    · intro v
      rw [hchar v]
      simp only [List.not_mem_nil, false_or]
      have htc2 : ∀ w, w ∈ tcl ↔ SpecTooClose g w := by
        intro w
        rw [htcchar w]
        simp [SpecTooClose]
      constructor
      · rintro ⟨r, hrmem, hrp, ab, hab, hv⟩
        rcases hv with ⟨rfl, hnot⟩ | ⟨rfl, hnot⟩
        · exact ⟨⟨r, hrmem, hrp, ab, hab, Or.inl rfl⟩,
            fun hsp => hnot ((htc2 _).mpr hsp)⟩
        · exact ⟨⟨r, hrmem, hrp, ab, hab, Or.inr rfl⟩,
            fun hsp => hnot ((htc2 _).mpr hsp)⟩
      · rintro ⟨⟨r, hrmem, hrp, ab, hab, hv⟩, hnotsp⟩
        refine ⟨r, hrmem, hrp, ab, hab, ?_⟩
        rcases hv with rfl | rfl
        · exact Or.inl ⟨rfl, fun hin => hnotsp ((htc2 _).mp hin)⟩
        · exact Or.inr ⟨rfl, fun hin => hnotsp ((htc2 _).mp hin)⟩
  · exact ⟨[46, 6, 5, 4], by decide, by decide⟩

/-- C7 witness: the universal part applied to the sample board. -/
theorem C7_witness :
    ∃ l, possible_building_intersections sampleMovesGame .White = some l ∧
      ∀ v, v ∈ l ↔ SpecBuildable sampleMovesGame .White v :=
  C7_possible_building_intersections.1 sampleMovesGame .White
    (by decide) (by decide)

/-! ## Lemmas for claim C5: longest_road on a 7-edge simple path -/

/-- The two entryPush calls performed by road_graph for one edge. -/
def push2 (acc : AdjList) (e : Nat × Nat) : AdjList :=
  entryPush (entryPush acc e.1 e.2) e.2 e.1

/-- The road graph built from a plain edge list. -/
def buildG (es : List (Nat × Nat)) : AdjList := es.foldl push2 []

/-- Orientation-normalised edge (smaller endpoint first). -/
def normPair (e : Nat × Nat) : Nat × Nat :=
  if e.1 ≤ e.2 then e else (e.2, e.1)

/-- The consecutive edges of a vertex sequence. -/
def pathEdges (vs : List Nat) : List (Nat × Nat) := vs.zip vs.tail

/-- Contribution of one undirected edge to the adjacency multiset of a
vertex. -/
def contrib (v : Nat) (e : Nat × Nat) : Multiset Nat :=
  (if e.1 = v then {e.2} else 0) + (if e.2 = v then {e.1} else 0)

/-- Adjacency of v in an edge list, as a multiset. -/
def adjMS (es : List (Nat × Nat)) (v : Nat) : Multiset Nat :=
  (es.map (contrib v)).sum

/-- Adjacency list entry of v in a graph, as a multiset. -/
def lookMS (g : AdjList) (v : Nat) : Multiset Nat :=
  match lookupAdj g v with
  | none => 0
  | some l => (l : Multiset Nat)

theorem lookupAdj_entryPush (g : AdjList) (a b k : Nat) :
    lookupAdj (entryPush g a b) k =
      if k = a then some (((lookupAdj g a).getD []) ++ [b])
      else lookupAdj g k := by
  induction g with
  | nil =>
    simp only [entryPush, lookupAdj]
    by_cases h : k = a <;> simp [h, lookupAdj]
  | cons hd tl ih =>
    obtain ⟨k2, vs⟩ := hd
    simp only [entryPush]
    by_cases ha : a = k2
    · subst ha
      simp only [lookupAdj]
      by_cases hk : k = a <;> simp [hk]
    · simp only [if_neg ha, lookupAdj]
      by_cases hk : k = k2
      · subst hk
        have ha2 : ¬ k = a := fun h => ha h.symm
        simp [ha2]
      · simp [hk, ih]

theorem lookMS_entryPush (g : AdjList) (a b k : Nat) :
    lookMS (entryPush g a b) k =
      lookMS g k + (if a = k then {b} else 0) := by
  rw [lookMS, lookupAdj_entryPush]
  by_cases h : k = a
  · subst h
    rw [if_pos rfl, if_pos rfl, lookMS]
    cases hga : lookupAdj g k <;>
      simp [← Multiset.coe_add, ← Multiset.coe_singleton]
  · rw [if_neg h, if_neg (fun h2 => h h2.symm), lookMS]
    cases hga : lookupAdj g k <;> simp

theorem lookMS_push2 (g : AdjList) (e : Nat × Nat) (k : Nat) :
    lookMS (push2 g e) k = lookMS g k + contrib k e := by
  rw [push2, lookMS_entryPush, lookMS_entryPush, contrib, add_assoc]

theorem lookMS_buildG_fold (es : List (Nat × Nat)) :
    ∀ (acc : AdjList) (k : Nat),
      lookMS (es.foldl push2 acc) k = lookMS acc k + adjMS es k := by
  induction es with
  | nil => intro acc k; simp [adjMS]
  | cons e rest ih =>
    intro acc k
    rw [List.foldl_cons, ih, lookMS_push2]
    simp only [adjMS, List.map_cons, List.sum_cons]
    abel

theorem lookMS_buildG (es : List (Nat × Nat)) (k : Nat) :
    lookMS (buildG es) k = adjMS es k := by
  rw [buildG, lookMS_buildG_fold]
  simp [lookMS, lookupAdj]

theorem lookupAdj_buildG_of_ne_zero (es : List (Nat × Nat)) (k : Nat)
    (h : adjMS es k ≠ 0) :
    ∃ l : List Nat, lookupAdj (buildG es) k = some l ∧
      (l : Multiset Nat) = adjMS es k := by
  have hl := lookMS_buildG es k
  cases hlk : lookupAdj (buildG es) k with
  | none =>
    rw [lookMS, hlk] at hl
    exact absurd hl.symm h
  | some l =>
    rw [lookMS, hlk] at hl
    exact ⟨l, rfl, hl⟩

theorem contrib_normPair (v : Nat) (e : Nat × Nat) :
    contrib v (normPair e) = contrib v e := by
  rw [normPair]
  by_cases h : e.1 ≤ e.2
  · rw [if_pos h]
  · rw [if_neg h, contrib, contrib]
    abel

theorem adjMS_eq_of_norm_perm (es1 es2 : List (Nat × Nat))
    (h : (es1.map normPair).Perm (es2.map normPair)) (v : Nat) :
    adjMS es1 v = adjMS es2 v := by
  have key : ∀ es : List (Nat × Nat),
      adjMS es v = ((es.map normPair).map (contrib v)).sum := by
    intro es
    rw [adjMS, List.map_map]
    congr 1
    apply List.map_congr_left
    intro e _
    exact (contrib_normPair v e).symm
  rw [key es1, key es2]
  exact List.Perm.sum_eq (h.map (contrib v))

/-- Head of a vertex list as a multiset (empty list contributes 0). -/
def mhead? (l : List Nat) : Multiset Nat :=
  match l with
  | [] => 0
  | x :: _ => {x}

/-- Last element of a vertex list as a multiset. -/
def mlast? (l : List Nat) : Multiset Nat :=
  match l.getLast? with
  | none => 0
  | some x => {x}

theorem mlast?_cons_cons (x y : Nat) (t : List Nat) :
    mlast? (x :: y :: t) = mlast? (y :: t) := by
  rw [mlast?, mlast?, List.getLast?_cons_cons]

theorem mlast?_single (x : Nat) : mlast? [x] = {x} := rfl

theorem mhead?_reverse (l : List Nat) : mhead? l.reverse = mlast? l := by
  rw [mlast?, ← List.head?_reverse]
  cases l.reverse <;> simp [mhead?]

theorem adjMS_append (es1 es2 : List (Nat × Nat)) (v : Nat) :
    adjMS (es1 ++ es2) v = adjMS es1 v + adjMS es2 v := by
  simp [adjMS]

theorem adjMS_zero_of_not_endpoint (es : List (Nat × Nat)) (v : Nat)
    (h : ∀ e ∈ es, e.1 ≠ v ∧ e.2 ≠ v) : adjMS es v = 0 := by
  induction es with
  | nil => rfl
  | cons e rest ih =>
    have he := h e (List.mem_cons_self _ _)
    simp only [adjMS, List.map_cons, List.sum_cons]
    rw [show contrib v e = 0 by simp [contrib, he.1, he.2]]
    rw [show (List.map (contrib v) rest).sum = 0 from
      ih (fun e2 h2 => h e2 (List.mem_cons_of_mem _ h2))]
    rfl

theorem pathEdges_endpoints (vs : List Nat) (e : Nat × Nat)
    (h : e ∈ pathEdges vs) : e.1 ∈ vs ∧ e.2 ∈ vs := by
  rw [pathEdges] at h
  obtain ⟨h1, h2⟩ := List.mem_zip h
  exact ⟨h1, List.mem_of_mem_tail h2⟩

theorem pathEdges_cons (x : Nat) (t : List Nat) :
    pathEdges (x :: t) =
      (match t with
        | [] => []
        | y :: _ => (x, y) :: pathEdges t) := by
  cases t <;> rfl

theorem adjMS_pathEdges_zero (vs : List Nat) (u : Nat) (h : u ∉ vs) :
    adjMS (pathEdges vs) u = 0 := by
  apply adjMS_zero_of_not_endpoint
  intro e he
  have := pathEdges_endpoints vs e he
  constructor
  · intro hx
    exact h (hx ▸ this.1)
  · intro hx
    exact h (hx ▸ this.2)

theorem adjMS_cons (e : Nat × Nat) (es : List (Nat × Nat)) (v : Nat) :
    adjMS (e :: es) v = contrib v e + adjMS es v := by
  simp [adjMS]

theorem adjMS_path_split :
    ∀ (pre : List Nat) (u : Nat) (post : List Nat),
      (pre ++ u :: post).Nodup →
      adjMS (pathEdges (pre ++ u :: post)) u = mlast? pre + mhead? post := by
  intro pre
  induction pre with
  | nil =>
    intro u post hnd
    simp only [List.nil_append] at hnd ⊢
    rw [show mlast? [] = 0 from rfl, zero_add]
    cases post with
    | nil => rfl
    | cons b post2 =>
      rw [pathEdges_cons]
      simp only
      have hu : u ∉ b :: post2 := (List.nodup_cons.mp hnd).1
      have hbu : ¬ b = u := fun h => hu (by rw [← h]; exact List.mem_cons_self _ _)
      rw [adjMS_cons, show contrib u (u, b) = {b} by simp [contrib, hbu],
        adjMS_pathEdges_zero _ u hu, mhead?]
      simp
  | cons x pre2 ih =>
    intro u post hnd
    rw [List.cons_append, pathEdges_cons]
    have hx : x ∉ pre2 ++ u :: post := (List.nodup_cons.mp hnd).1
    have hxu : ¬ x = u := by
      intro h
      exact hx (h ▸ (by simp : u ∈ pre2 ++ u :: post))
    have hnd2 : (pre2 ++ u :: post).Nodup := (List.nodup_cons.mp hnd).2
    cases hpre2 : pre2 with
    | nil =>
      subst hpre2
      simp only [List.nil_append]
      rw [adjMS_cons, show contrib u (x, u) = {x} by simp [contrib, hxu]]
      have h2 := ih u post hnd2
      simp only [List.nil_append] at h2
      rw [h2, mlast?_single, show mlast? [] = 0 from rfl]
      simp
    | cons y pre3 =>
      subst hpre2
      simp only [List.cons_append]
      have hnd3 : ((y :: pre3) ++ u :: post).Nodup := hnd2
      rw [List.cons_append, List.nodup_cons] at hnd3
      have hyu : ¬ y = u := by
        intro h
        exact hnd3.1 (h ▸ (by simp : u ∈ pre3 ++ u :: post))
      rw [adjMS_cons, show contrib u (x, y) = 0 by simp [contrib, hxu, hyu]]
      have h2 := ih u post hnd2
      simp only [List.cons_append] at h2
      rw [h2, mlast?_cons_cons]
      simp

/-- The adjacency facts the dfs meets while walking a chain: each vertex's
adjacency-list entry holds exactly the parent it was entered from plus the
next chain vertex (if any), in either order. -/
inductive ChainAdj (g : AdjList) : Nat → List Nat → Prop where
  | nil (parent : Nat) : ChainAdj g parent []
  | cons (parent w : Nat) (rest : List Nat) (l : List Nat)
      (hlook : lookupAdj g w = some l)
      (hms : (l : Multiset Nat) = {parent} + mhead? rest)
      (hrest : ChainAdj g w rest) :
      ChainAdj g parent (w :: rest)

theorem lookMS_some_of_ne_zero (g : AdjList) (w : Nat)
    (h : lookMS g w ≠ 0) :
    ∃ l : List Nat, lookupAdj g w = some l ∧ (l : Multiset Nat) = lookMS g w := by
  cases hl : lookupAdj g w with
  | none =>
    rw [lookMS, hl] at h
    exact absurd rfl h
  | some l =>
    rw [lookMS, hl]
    exact ⟨l, rfl, rfl⟩

theorem singleton_add_ne_zero (x : Nat) (m : Multiset Nat) :
    ({x} : Multiset Nat) + m ≠ 0 := by
  intro h
  have : x ∈ ({x} : Multiset Nat) + m := by simp
  rw [h] at this
  cases this

/-- Build ChainAdj for a suffix of the path: the remaining chain to the
right of the parent. -/
theorem chainAdj_suffix (g : AdjList) (vs : List Nat)
    (hnd : vs.Nodup)
    (hg : ∀ v, lookMS g v = adjMS (pathEdges vs) v) :
    ∀ (ws : List Nat) (pre : List Nat) (parent : Nat),
      vs = pre ++ parent :: ws → ChainAdj g parent ws := by
  intro ws
  induction ws with
  | nil => intro pre parent _; exact .nil parent
  | cons w rest ih =>
    intro pre parent hvs
    have hsplit : vs = (pre ++ [parent]) ++ w :: rest := by
      rw [hvs]; simp
    have hadj : adjMS (pathEdges vs) w = {parent} + mhead? rest := by
      rw [hsplit, adjMS_path_split (pre ++ [parent]) w rest
        (hsplit ▸ hnd)]
      congr 1
      rw [mlast?, List.getLast?_append]
      rfl
    have hne : lookMS g w ≠ 0 := by
      rw [hg w, hadj]
      exact singleton_add_ne_zero parent _
    obtain ⟨l, hl, hlm⟩ := lookMS_some_of_ne_zero g w hne
    exact .cons parent w rest l hl (by rw [hlm, hg w, hadj])
      (ih (pre ++ [parent]) w hsplit)

/-- Build ChainAdj for the reversed prefix of the path: the chain to the
left of the parent, walked outward. -/
theorem chainAdj_preRev (g : AdjList) (vs : List Nat)
    (hnd : vs.Nodup)
    (hg : ∀ v, lookMS g v = adjMS (pathEdges vs) v) :
    ∀ (A : List Nat) (parent : Nat) (suffix : List Nat),
      vs = A ++ parent :: suffix → ChainAdj g parent A.reverse := by
  intro A
  induction A using List.reverseRecOn with
  | nil => intro parent suffix _; exact .nil parent
  | append_singleton A2 w ih =>
    intro parent suffix hvs
    rw [List.reverse_append, List.reverse_singleton]
    simp only [List.singleton_append]
    have hsplit : vs = A2 ++ w :: (parent :: suffix) := by
      rw [hvs]; simp
    have hadj : adjMS (pathEdges vs) w = {parent} + mhead? A2.reverse := by
      rw [hsplit, adjMS_path_split A2 w (parent :: suffix)
        (hsplit ▸ hnd), mhead?_reverse]
      rw [show mhead? (parent :: suffix) = {parent} from rfl]
      exact add_comm _ _
    have hne : lookMS g w ≠ 0 := by
      rw [hg w, hadj]
      exact singleton_add_ne_zero parent _
    obtain ⟨l, hl, hlm⟩ := lookMS_some_of_ne_zero g w hne
    exact .cons parent w A2.reverse l hl (by rw [hlm, hg w, hadj])
      (ih w (parent :: suffix) hsplit)

theorem list_of_ms_one (l : List Nat) (x : Nat)
    (h : (l : Multiset Nat) = {x}) : l = [x] := by
  have hp : l.Perm [x] := by
    rw [← Multiset.coe_eq_coe, h, ← Multiset.coe_singleton]
  rw [List.perm_singleton] at hp
  exact hp

theorem list_of_ms_two (l : List Nat) (x y : Nat)
    (h : (l : Multiset Nat) = {x} + {y}) : l = [x, y] ∨ l = [y, x] := by
  have hperm : l.Perm [x, y] := by
    rw [← Multiset.coe_eq_coe]
    rw [h]
    rfl
  have hlen : l.length = 2 := by
    rw [hperm.length_eq]
    rfl
  match l, hlen with
  | [a, b], _ =>
    have hax : a ∈ [x, y] := hperm.mem_iff.mp (by simp)
    rcases List.mem_pair.mp hax with rfl | rfl
    · have : [b].Perm [y] := hperm.cons_inv
      rw [List.perm_singleton] at this
      exact Or.inl (by rw [this])
    · have hswap : List.Perm [x, a] [a, x] := List.Perm.swap a x []
      have : [b].Perm [x] := (hperm.trans hswap).cons_inv
      rw [List.perm_singleton] at this
      exact Or.inr (by rw [this])

theorem dfs_unfold_visited (g : AdjList) (f node : Nat)
    (visited : List Nat) (longest : Nat) (h : node ∈ visited) :
    dfs g (f + 1) node visited longest = some (0, 0, visited) := by
  rw [dfs.eq_def]
  simp [h]

theorem dfs_unfold_step (g : AdjList) (f node : Nat) (visited : List Nat)
    (longest : Nat) (ns : List Nat) (m1 m2 : Nat) (v2 : List Nat)
    (hnv : node ∉ visited) (hlook : lookupAdj g node = some ns)
    (hkids : dfsKids g f ns 0 0 (node :: visited) longest =
      some (m1, m2, v2)) :
    dfs g (f + 1) node visited longest =
      some (m1 + 1, if m1 + m2 > longest then m1 + m2 else longest, v2) := by
  rw [dfs.eq_def]
  simp [hnv, hlook, hkids]

theorem dfsKids_unfold_nil (g : AdjList) (f m1 m2 : Nat)
    (visited : List Nat) (longest : Nat) :
    dfsKids g f [] m1 m2 visited longest = some (m1, m2, visited) := by
  rw [dfsKids.eq_def]

theorem dfsKids_unfold_cons (g : AdjList) (f n : Nat) (rest : List Nat)
    (m1 m2 : Nat) (visited : List Nat) (longest h lg : Nat)
    (v2 : List Nat)
    (hdfs : dfs g f n visited longest = some (h, lg, v2)) :
    dfsKids g f (n :: rest) m1 m2 visited longest =
      if m1 < h then dfsKids g f rest h m1 v2 longest
      else if m2 < h then dfsKids g f rest m1 h v2 longest
      else dfsKids g f rest m1 m2 v2 longest := by
  rw [dfsKids.eq_def]
  simp [hdfs]

/-- Running the dfs down a chain: from the first chain vertex, with the
parent already visited, the dfs returns height = number of chain vertices
and marks exactly the chain (in reverse order) on top of the previous
visited list. -/
theorem dfs_chain :
    ∀ (rest : List Nat) (g : AdjList) (w parent : Nat)
      (visited : List Nat) (longest fuel : Nat),
      ChainAdj g parent (w :: rest) →
      parent ∈ visited →
      (w :: rest).Nodup →
      (∀ x ∈ w :: rest, x ∉ visited) →
      rest.length + 2 ≤ fuel →
      ∃ lg, dfs g fuel w visited longest =
        some (rest.length + 1, lg, (w :: rest).reverse ++ visited) := by
  intro rest
  induction rest with
  | nil =>
    intro g w parent visited longest fuel hchain hpar hnd hdisj hfuel
    obtain ⟨f, rfl⟩ : ∃ f, fuel = f + 1 := ⟨fuel - 1, by omega⟩
    obtain ⟨f2, rfl⟩ : ∃ f2, f = f2 + 1 := ⟨f - 1, by omega⟩
    cases hchain with
    | cons _ _ _ l hlook hms _ =>
      have hl : l = [parent] := by
        apply list_of_ms_one
        rw [hms]
        rfl
      subst hl
      have hkids : dfsKids g (f2 + 1) [parent] 0 0 (w :: visited) longest =
          some (0, 0, w :: visited) := by
        rw [dfsKids_unfold_cons g (f2 + 1) parent [] 0 0 (w :: visited)
          longest 0 0 (w :: visited)
          (dfs_unfold_visited g f2 parent (w :: visited) longest
            (List.mem_cons_of_mem _ hpar))]
        simp [dfsKids_unfold_nil]
      refine ⟨if 0 + 0 > longest then 0 + 0 else longest, ?_⟩
      rw [dfs_unfold_step g (f2 + 1) w visited longest [parent] 0 0
        (w :: visited) (hdisj w (List.mem_cons_self _ _)) hlook hkids]
      simp
  | cons w2 rest2 ih =>
    intro g w parent visited longest fuel hchain hpar hnd hdisj hfuel
    obtain ⟨f, rfl⟩ : ∃ f, fuel = f + 1 := ⟨fuel - 1, by omega⟩
    have hf2 : ∃ f2, f = f2 + 1 := ⟨f - 1, by omega⟩
    obtain ⟨f2, rfl⟩ := hf2
    cases hchain with
    | cons _ _ _ l hlook hms hrest =>
      have hlms : (l : Multiset Nat) = {parent} + {w2} := by
        rw [hms]
        rfl
      have hwnv : w ∉ visited := hdisj w (List.mem_cons_self _ _)
      have hndtail : (w2 :: rest2).Nodup := (List.nodup_cons.mp hnd).2
      have hwnot : w ∉ w2 :: rest2 := (List.nodup_cons.mp hnd).1
      have hdisj2 : ∀ x ∈ w2 :: rest2, x ∉ w :: visited := by
        intro x hx
        rw [List.mem_cons]
        rintro (rfl | hxv)
        · exact hwnot hx
        · exact hdisj x (List.mem_cons_of_mem _ hx) hxv
      have hIH := ih g w2 w (w :: visited) longest (f2 + 1) hrest
        (List.mem_cons_self _ _) hndtail hdisj2 (by
          simp only [List.length_cons] at hfuel ⊢
          omega)
      obtain ⟨lg1, hdfs1⟩ := hIH
      have hvref : (w2 :: rest2).reverse ++ (w :: visited) =
          (w :: w2 :: rest2).reverse ++ visited := by
        simp
      rcases list_of_ms_two l parent w2 hlms with rfl | rfl
      · -- l = [parent, w2]
        have hkids : dfsKids g (f2 + 1) [parent, w2] 0 0 (w :: visited)
            longest = some (rest2.length + 1, 0,
              (w :: w2 :: rest2).reverse ++ visited) := by
          rw [dfsKids_unfold_cons g (f2 + 1) parent [w2] 0 0 (w :: visited)
            longest 0 0 (w :: visited)
            (dfs_unfold_visited g f2 parent (w :: visited) longest
              (List.mem_cons_of_mem _ hpar))]
          simp only [Nat.lt_irrefl, if_false]
          rw [dfsKids_unfold_cons g (f2 + 1) w2 [] 0 0 (w :: visited)
            longest (rest2.length + 1) lg1 ((w2 :: rest2).reverse ++
              (w :: visited)) hdfs1]
          rw [if_pos (by omega)]
          rw [dfsKids_unfold_nil, hvref]
        refine ⟨if (rest2.length + 1) + 0 > longest
          then (rest2.length + 1) + 0 else longest, ?_⟩
        rw [dfs_unfold_step g (f2 + 1) w visited longest [parent, w2]
          (rest2.length + 1) 0 ((w :: w2 :: rest2).reverse ++ visited)
          hwnv hlook hkids]
        rfl
      · -- l = [w2, parent]
        have hparv2 : parent ∈ (w2 :: rest2).reverse ++ (w :: visited) := by
          rw [List.mem_append]
          exact Or.inr (List.mem_cons_of_mem _ hpar)
        have hkids : dfsKids g (f2 + 1) [w2, parent] 0 0 (w :: visited)
            longest = some (rest2.length + 1, 0,
              (w :: w2 :: rest2).reverse ++ visited) := by
          rw [dfsKids_unfold_cons g (f2 + 1) w2 [parent] 0 0 (w :: visited)
            longest (rest2.length + 1) lg1 ((w2 :: rest2).reverse ++
              (w :: visited)) hdfs1]
          rw [if_pos (by omega)]
          rw [dfsKids_unfold_cons g (f2 + 1) parent [] (rest2.length + 1) 0
            ((w2 :: rest2).reverse ++ (w :: visited)) longest 0 0
            ((w2 :: rest2).reverse ++ (w :: visited))
            (dfs_unfold_visited g f2 parent _ longest hparv2)]
          rw [if_neg (by omega), if_neg (by omega)]
          rw [dfsKids_unfold_nil, hvref]
        refine ⟨if (rest2.length + 1) + 0 > longest
          then (rest2.length + 1) + 0 else longest, ?_⟩
        rw [dfs_unfold_step g (f2 + 1) w visited longest [w2, parent]
          (rest2.length + 1) 0 ((w :: w2 :: rest2).reverse ++ visited)
          hwnv hlook hkids]
        rfl

theorem road_graph_eq_buildG (p : Player) :
    ∀ (roads : List Road) (es : List (Nat × Nat)) (acc : AdjList),
      (roads.filter (fun r => r.player = p)).map
        (fun r => boardPaths[r.id]?) = es.map some →
      roads.foldl (roadGraphStep p) (some acc) =
        some (es.foldl push2 acc) := by
  intro roads
  induction roads with
  | nil =>
    intro es acc h
    simp only [List.filter_nil, List.map_nil] at h
    have : es = [] := by
      cases es with
      | nil => rfl
      | cons e es2 => simp at h
    subst this
    rfl
  | cons r rest ih =>
    intro es acc h
    by_cases hp : r.player = p
    · rw [List.filter_cons_of_pos (by simp [hp]), List.map_cons] at h
      cases es with
      | nil => simp at h
      | cons e es2 =>
        obtain ⟨a, b⟩ := e
        rw [List.map_cons, List.cons_eq_cons] at h
        have hstep : roadGraphStep p (some acc) r = some (push2 acc (a, b)) := by
          simp [roadGraphStep, hp, h.1, push2]
        rw [List.foldl_cons, hstep, List.foldl_cons]
        exact ih es2 (push2 acc (a, b)) h.2
    · rw [List.filter_cons_of_neg (by simp [hp])] at h
      have hstep : roadGraphStep p (some acc) r = some acc := by
        simp [roadGraphStep, hp]
      rw [List.foldl_cons, hstep]
      exact ih es acc h

/-- C5: for every game in which a player's owned roads form a single
simple path of 7 consecutive edges (8 distinct vertices, no branching,
acyclic, containing — hence reachable from — the fixed start vertex,
intersection 6), longest_road returns 7: the number of edges of the path,
not the number of its vertices. -/
theorem C5_longest_road_seven (g : Game) (p : Player)
    (vs : List Nat) (es : List (Nat × Nat))
    (hlen : vs.length = 8) (hnd : vs.Nodup) (h6 : 6 ∈ vs)
    (hes : (g.state.roads.filter (fun r => r.player = p)).map
      (fun r => boardPaths[r.id]?) = es.map some)
    (hperm : (es.map normPair).Perm ((pathEdges vs).map normPair)) :
    longest_road g p = some 7 := by
  obtain ⟨A, B, hvs⟩ := List.append_of_mem h6
  subst hvs
  -- basic structure facts
  have hndA : A.Nodup := (List.nodup_append.mp hnd).1
  have hndB6 : (6 :: B).Nodup := (List.nodup_append.mp hnd).2.1
  have hdisjAB : A.Disjoint (6 :: B) := (List.nodup_append.mp hnd).2.2
  have h6A : 6 ∉ A := fun h => hdisjAB h (List.mem_cons_self _ _)
  have h6B : 6 ∉ B := (List.nodup_cons.mp hndB6).1
  have hndB : B.Nodup := (List.nodup_cons.mp hndB6).2
  have hlenAB : A.length + B.length = 7 := by
    rw [List.length_append, List.length_cons] at hlen
    omega
  -- the graph and its adjacency
  have hroadgraph : road_graph g p = some (buildG es) :=
    road_graph_eq_buildG p g.state.roads es [] hes
  have hgv : ∀ v, lookMS (buildG es) v =
      adjMS (pathEdges (A ++ 6 :: B)) v := fun v =>
    (lookMS_buildG es v).trans
      (adjMS_eq_of_norm_perm es (pathEdges (A ++ 6 :: B)) hperm v)
  have hms6 : lookMS (buildG es) 6 = mlast? A + mhead? B := by
    rw [hgv 6]
    exact adjMS_path_split A 6 B hnd
  -- fuel arithmetic
  have hes_len : es.length = 7 := by
    have h1 : (es.map normPair).length =
        ((pathEdges (A ++ 6 :: B)).map normPair).length := hperm.length_eq
    rw [List.length_map, List.length_map] at h1
    rw [h1, pathEdges, List.length_zip, List.length_tail, hlen]
    decide
  have hroads_len : 7 ≤ g.state.roads.length := by
    have h1 : ((g.state.roads.filter (fun r => r.player = p)).map
        (fun r => boardPaths[r.id]?)).length = (es.map some).length := by
      rw [hes]
    rw [List.length_map, List.length_map, hes_len] at h1
    have h2 := List.length_filter_le (fun r => decide (r.player = p))
      g.state.roads
    omega
  obtain ⟨f, hf⟩ : ∃ f, dfsFuel g = f + 1 :=
    ⟨dfsFuel g - 1, by rw [dfsFuel]; omega⟩
  have hfge : 16 ≤ f := by
    rw [dfsFuel] at hf
    omega
  -- the dfs from the root
  have hmain : ∃ m1 m2 vfin, dfs (buildG es) (f + 1) 6 [] 0 =
      some (m1 + 1, if m1 + m2 > 0 then m1 + m2 else 0, vfin) ∧
      m1 + m2 = 7 := by
    cases hA : A with
    | nil =>
      -- the start vertex is the left end of the path
      subst hA
      cases hB : B with
      | nil =>
        subst hB
        simp at hlenAB
      | cons b B2 =>
        subst hB
        have hchainB : ChainAdj (buildG es) 6 (b :: B2) :=
          chainAdj_suffix (buildG es) _ hnd hgv (b :: B2) [] 6 rfl
        have hlook6 : lookupAdj (buildG es) 6 = some [b] := by
          have hne : lookMS (buildG es) 6 ≠ 0 := by
            rw [hms6]
            rw [show mlast? ([] : List Nat) = 0 from rfl, zero_add,
              show mhead? (b :: B2) = {b} from rfl]
            intro hcontr
            have : b ∈ ({b} : Multiset Nat) := by simp
            rw [hcontr] at this
            cases this
          obtain ⟨l, hl, hlm⟩ := lookMS_some_of_ne_zero _ _ hne
          rw [hms6] at hlm
          rw [show mlast? ([] : List Nat) = 0 from rfl, zero_add,
            show mhead? (b :: B2) = {b} from rfl] at hlm
          rw [hl, list_of_ms_one l b hlm]
        obtain ⟨lg1, hdfs1⟩ := dfs_chain B2 (buildG es) b 6 [6] 0 f
          hchainB (List.mem_cons_self _ _) hndB
          (fun x hx => by
            rw [List.mem_singleton]
            rintro rfl
            exact h6B hx)
          (by
            have : B2.length = 6 := by
              simp only [List.length_nil] at hlenAB
              simp only [List.length_cons] at hlenAB
              omega
            omega)
        have hkids : dfsKids (buildG es) f [b] 0 0 [6] 0 =
            some (B2.length + 1, 0, (b :: B2).reverse ++ [6]) := by
          rw [dfsKids_unfold_cons (buildG es) f b [] 0 0 [6] 0
            (B2.length + 1) lg1 ((b :: B2).reverse ++ [6]) hdfs1]
          rw [if_pos (by omega), dfsKids_unfold_nil]
        refine ⟨B2.length + 1, 0, (b :: B2).reverse ++ [6], ?_, ?_⟩
        · exact dfs_unfold_step (buildG es) f 6 [] 0 [b] (B2.length + 1) 0
            ((b :: B2).reverse ++ [6]) (by simp) hlook6 hkids
        · simp only [List.length_nil, List.length_cons] at hlenAB
          omega
    | cons a0 A0 =>
      -- A nonempty: there is a left-side chain
      have hAne : A ≠ [] := by rw [hA]; simp
      obtain ⟨w, A2, hArev⟩ : ∃ w A2, A.reverse = w :: A2 := by
        cases hrev : A.reverse with
        | nil =>
          rw [List.reverse_eq_nil_iff] at hrev
          exact absurd hrev hAne
        | cons w A2 => exact ⟨w, A2, rfl⟩
      have hchainA : ChainAdj (buildG es) 6 (w :: A2) := by
        rw [← hArev]
        exact chainAdj_preRev (buildG es) _ hnd hgv A 6 B rfl
      have hmlastA : mlast? A = {w} := by
        rw [← mhead?_reverse, hArev]
        rfl
      have hA2len : A2.length + 1 = A.length := by
        have h2 := congrArg List.length hArev
        rw [List.length_reverse, List.length_cons] at h2
        omega
      have hwA : w ∈ A := by
        rw [← List.mem_reverse, hArev]
        exact List.mem_cons_self _ _
      have hndArev : (w :: A2).Nodup := by
        rw [← hArev]
        exact List.nodup_reverse.mpr hndA
      have hdisjA6 : ∀ x ∈ w :: A2, x ∉ ([6] : List Nat) := by
        intro x hx
        rw [List.mem_singleton]
        rintro rfl
        rw [← hArev, List.mem_reverse] at hx
        exact h6A hx
      cases hB : B with
      | nil =>
        -- the start vertex is the right end of the path
        subst hB
        have hlook6 : lookupAdj (buildG es) 6 = some [w] := by
          have hne : lookMS (buildG es) 6 ≠ 0 := by
            rw [hms6, hmlastA, show mhead? ([] : List Nat) = 0 from rfl,
              add_zero]
            intro hcontr
            have : w ∈ ({w} : Multiset Nat) := by simp
            rw [hcontr] at this
            cases this
          obtain ⟨l, hl, hlm⟩ := lookMS_some_of_ne_zero _ _ hne
          rw [hms6, hmlastA, show mhead? ([] : List Nat) = 0 from rfl,
            add_zero] at hlm
          rw [hl, list_of_ms_one l w hlm]
        obtain ⟨lg1, hdfs1⟩ := dfs_chain A2 (buildG es) w 6 [6] 0 f
          hchainA (List.mem_cons_self _ _) hndArev hdisjA6
          (by
            simp only [List.length_nil] at hlenAB
            omega)
        have hkids : dfsKids (buildG es) f [w] 0 0 [6] 0 =
            some (A2.length + 1, 0, (w :: A2).reverse ++ [6]) := by
          rw [dfsKids_unfold_cons (buildG es) f w [] 0 0 [6] 0
            (A2.length + 1) lg1 ((w :: A2).reverse ++ [6]) hdfs1]
          rw [if_pos (by omega), dfsKids_unfold_nil]
        refine ⟨A2.length + 1, 0, (w :: A2).reverse ++ [6], ?_, ?_⟩
        · exact dfs_unfold_step (buildG es) f 6 [] 0 [w] (A2.length + 1) 0
            ((w :: A2).reverse ++ [6]) (by simp) hlook6 hkids
        · simp only [List.length_nil] at hlenAB
          omega
      | cons b B2 =>
        -- the start vertex is interior: two chains
        subst hB
        have hchainB : ChainAdj (buildG es) 6 (b :: B2) :=
          chainAdj_suffix (buildG es) _ hnd hgv (b :: B2) A 6 rfl
        have hlenBc : (b :: B2).length = B2.length + 1 := List.length_cons _ _
        have hndBcons : (b :: B2).Nodup := hndB
        have hdisjB6 : ∀ x ∈ b :: B2, x ∉ ([6] : List Nat) := by
          intro x hx
          rw [List.mem_singleton]
          rintro rfl
          exact h6B hx
        have hBA : ∀ x ∈ b :: B2, x ∉ A := by
          intro x hx hxA
          exact hdisjAB hxA (List.mem_cons_of_mem _ hx)
        have hAB : ∀ x ∈ w :: A2, x ∉ b :: B2 := by
          intro x hx hxB
          rw [← hArev, List.mem_reverse] at hx
          exact hBA x hxB hx
        have hms6' : lookMS (buildG es) 6 = {w} + {b} := by
          rw [hms6, hmlastA]
          rfl
        have hlook6 : ∃ l, lookupAdj (buildG es) 6 = some l ∧
            (l = [w, b] ∨ l = [b, w]) := by
          have hne : lookMS (buildG es) 6 ≠ 0 := by
            rw [hms6']
            exact singleton_add_ne_zero w _
          obtain ⟨l, hl, hlm⟩ := lookMS_some_of_ne_zero _ _ hne
          rw [hms6'] at hlm
          exact ⟨l, hl, list_of_ms_two l w b hlm⟩
        obtain ⟨l, hlook, hlcases⟩ := hlook6
        -- run the A-side chain first from visited [6]
        obtain ⟨lgA, hdfsA⟩ := dfs_chain A2 (buildG es) w 6 [6] 0 f
          hchainA (List.mem_cons_self _ _) hndArev hdisjA6 (by omega)
        obtain ⟨lgB, hdfsB⟩ := dfs_chain B2 (buildG es) b 6 [6] 0 f
          hchainB (List.mem_cons_self _ _) hndBcons hdisjB6 (by omega)
        -- second-run versions with the other side already visited
        obtain ⟨lgB2, hdfsB2⟩ := dfs_chain B2 (buildG es) b 6
          ((w :: A2).reverse ++ [6]) 0 f hchainB
          (by rw [List.mem_append]; exact Or.inr (List.mem_singleton.mpr rfl))
          hndBcons
          (by
            intro x hx
            rw [List.mem_append, List.mem_reverse]
            rintro (hxr | hx6)
            · exact hAB x hxr hx
            · rw [List.mem_singleton] at hx6
              subst hx6
              exact h6B hx)
          (by omega)
        obtain ⟨lgA2, hdfsA2⟩ := dfs_chain A2 (buildG es) w 6
          ((b :: B2).reverse ++ [6]) 0 f hchainA
          (by rw [List.mem_append]; exact Or.inr (List.mem_singleton.mpr rfl))
          hndArev
          (by
            intro x hx
            rw [List.mem_append, List.mem_reverse]
            rintro (hxr | hx6)
            · exact hAB x hx hxr
            · rw [List.mem_singleton] at hx6
              subst hx6
              rw [← hArev, List.mem_reverse] at hx
              exact h6A hx)
          (by omega)
        have hsum : (A2.length + 1) + (B2.length + 1) = 7 := by
          simp only [List.length_cons] at hlenAB
          omega
        rcases hlcases with rfl | rfl
        · -- neighbours listed A-side first
          have hkids : ∃ m1 m2 vfin,
              dfsKids (buildG es) f [w, b] 0 0 [6] 0 =
                some (m1, m2, vfin) ∧ m1 + m2 = 7 := by
            rw [dfsKids_unfold_cons (buildG es) f w [b] 0 0 [6] 0
              (A2.length + 1) lgA ((w :: A2).reverse ++ [6]) hdfsA]
            rw [if_pos (by omega)]
            rw [dfsKids_unfold_cons (buildG es) f b [] (A2.length + 1) 0
              ((w :: A2).reverse ++ [6]) 0 (B2.length + 1) lgB2
              ((b :: B2).reverse ++ ((w :: A2).reverse ++ [6])) hdfsB2]
            by_cases hcmp : A2.length + 1 < B2.length + 1
            · rw [if_pos hcmp, dfsKids_unfold_nil]
              exact ⟨_, _, _, rfl, by omega⟩
            · rw [if_neg hcmp, if_pos (by omega), dfsKids_unfold_nil]
              exact ⟨_, _, _, rfl, by omega⟩
          obtain ⟨m1, m2, vfin, hkids, hm⟩ := hkids
          exact ⟨m1, m2, vfin,
            dfs_unfold_step (buildG es) f 6 [] 0 [w, b] m1 m2 vfin
              (by simp) hlook hkids, hm⟩
        · -- neighbours listed B-side first
          have hkids : ∃ m1 m2 vfin,
              dfsKids (buildG es) f [b, w] 0 0 [6] 0 =
                some (m1, m2, vfin) ∧ m1 + m2 = 7 := by
            rw [dfsKids_unfold_cons (buildG es) f b [w] 0 0 [6] 0
              (B2.length + 1) lgB ((b :: B2).reverse ++ [6]) hdfsB]
            rw [if_pos (by omega)]
            rw [dfsKids_unfold_cons (buildG es) f w [] (B2.length + 1) 0
              ((b :: B2).reverse ++ [6]) 0 (A2.length + 1) lgA2
              ((w :: A2).reverse ++ ((b :: B2).reverse ++ [6])) hdfsA2]
            by_cases hcmp : B2.length + 1 < A2.length + 1
            · rw [if_pos hcmp, dfsKids_unfold_nil]
              exact ⟨_, _, _, rfl, by omega⟩
            · rw [if_neg hcmp, if_pos (by omega), dfsKids_unfold_nil]
              exact ⟨_, _, _, rfl, by omega⟩
          obtain ⟨m1, m2, vfin, hkids, hm⟩ := hkids
          exact ⟨m1, m2, vfin,
            dfs_unfold_step (buildG es) f 6 [] 0 [b, w] m1 m2 vfin
              (by simp) hlook hkids, hm⟩
  obtain ⟨m1, m2, vfin, hdfs, hm⟩ := hmain
  rw [longest_road, hroadgraph]
  simp only
  rw [hf, hdfs]
  simp only
  rw [if_pos (by omega : m1 + m2 > 0), hm]

/-- A game whose White roads form the single simple 7-edge path
8-0-1-2-3-4-5-6 (path ids 6, 0, 1, 2, 3, 4, 5). -/
def C5game : Game :=
  ⟨sampleTiles,
    ⟨[], [⟨6, .White⟩, ⟨0, .White⟩, ⟨1, .White⟩, ⟨2, .White⟩,
      ⟨3, .White⟩, ⟨4, .White⟩, ⟨5, .White⟩], 7,
      ⟨zeroRC, zeroRC, zeroRC⟩⟩⟩

/-- C5 witness: the path 8-0-1-2-3-4-5-6 yields longest_road 7. -/
theorem C5_witness : longest_road C5game .White = some 7 :=
  C5_longest_road_seven C5game .White [8, 0, 1, 2, 3, 4, 5, 6]
    [(0, 8), (0, 1), (1, 2), (2, 3), (3, 4), (4, 5), (5, 6)]
    (by decide) (by decide) (by decide) (by decide) (by decide)

/-- Inversion of a successful decode: the slot-count asserts passed,
every stage succeeded, the board had 19 tiles, the robber was set, and
the pieces assemble g. -/
lemma decodeGame_ok_inv {s : List Char} {g : Game}
    (h : decodeGame s = .ok g) :
    ∃ bs rds tls rb wv rv bv,
      decodeBuildingLines (rustLines s) building_coordinates 0 0 [] =
        .ok bs ∧
      decodeRoadLines (rustLines s) road_coordinates 0 0 [] = .ok rds ∧
      decodeTileLines (rustLines s) tile_coordinates 0 0 [] none =
        .ok (tls, some rb) ∧
      decodeResourceVecs s = .ok (wv, rv, bv) ∧
      tls.length = 19 ∧
      resourceCountOfVec rv = .ok g.state.resources.red ∧
      resourceCountOfVec bv = .ok g.state.resources.blue ∧
      resourceCountOfVec wv = .ok g.state.resources.white ∧
      g.tiles = tls ∧ g.state.buildings = bs ∧ g.state.roads = rds ∧
      g.state.robber = rb := by
  rw [decodeGame] at h
  rw [if_neg (by decide), if_neg (by decide), if_neg (by decide)] at h
  cases hB : decodeBuildingLines (rustLines s) building_coordinates 0 0 [] with
  | error e => simp [hB] at h
  | ok bs =>
  simp only [hB] at h
  cases hRd : decodeRoadLines (rustLines s) road_coordinates 0 0 [] with
  | error e => simp [hRd] at h
  | ok rds =>
  simp only [hRd] at h
  cases hT : decodeTileLines (rustLines s) tile_coordinates 0 0 [] none with
  | error e => simp [hT] at h
  | ok tr =>
  obtain ⟨tls, rob⟩ := tr
  simp only [hT] at h
  cases hV : decodeResourceVecs s with
  | error e => simp [hV] at h
  | ok vecs =>
  obtain ⟨wv, rv, bv⟩ := vecs
  simp only [hV] at h
  by_cases h19 : tls.length = 19
  · rw [if_pos h19] at h
    cases hR : resourceCountOfVec rv with
    | error e => simp [hR] at h
    | ok red =>
    simp only [hR] at h
    cases hBl : resourceCountOfVec bv with
    | error e => simp [hBl] at h
    | ok blue =>
    simp only [hBl] at h
    cases hW : resourceCountOfVec wv with
    | error e => simp [hW] at h
    | ok white =>
    simp only [hW] at h
    cases rob with
    | none => simp at h
    | some rb =>
    simp only [Except.ok.injEq] at h
    subst h
    exact ⟨bs, rds, tls, rb, wv, rv, bv, rfl, rfl, rfl, rfl, h19, hR, hBl, hW,
      rfl, rfl, rfl, rfl⟩
  · rw [if_neg h19] at h
    simp at h

/-- Inversion of a successful resource stage: the first three filtered
resource lines exist and parse to the three vectors, positionally. -/
lemma decodeResourceVecs_ok_inv {s : List Char}
    {wv rv bv : List Nat}
    (h : decodeResourceVecs s = .ok (wv, rv, bv)) :
    ∃ lw lr lb,
      (filteredResourceLines s)[0]? = some lw ∧
      (filteredResourceLines s)[1]? = some lr ∧
      (filteredResourceLines s)[2]? = some lb ∧
      parseCountsLine lw = .ok wv ∧ parseCountsLine lr = .ok rv ∧
      parseCountsLine lb = .ok bv := by
  rw [decodeResourceVecs] at h
  cases h0 : (filteredResourceLines s)[0]? with
  | none => simp [h0] at h
  | some lw =>
  simp only [h0] at h
  cases hp0 : parseCountsLine lw with
  | error e => simp [hp0] at h
  | ok wv2 =>
  simp only [hp0] at h
  cases h1 : (filteredResourceLines s)[1]? with
  | none => simp [h1] at h
  | some lr =>
  simp only [h1] at h
  cases hp1 : parseCountsLine lr with
  | error e => simp [hp1] at h
  | ok rv2 =>
  simp only [hp1] at h
  cases h2 : (filteredResourceLines s)[2]? with
  | none => simp [h2] at h
  | some lb =>
  simp only [h2] at h
  cases hp2 : parseCountsLine lb with
  | error e => simp [hp2] at h
  | ok bv2 =>
  simp only [hp2, Except.ok.injEq, Prod.mk.injEq] at h
  obtain ⟨hw, hr, hb⟩ := h
  subst hw; subst hr; subst hb
  exact ⟨lw, lr, lb, rfl, rfl, rfl, hp0, hp1, hp2⟩

/-- An index with a value is in range. -/
lemma lt_of_getElem?_eq_some {α : Type} {l : List α} {i : Nat} {a : α}
    (h : l[i]? = some a) : i < l.length := by
  induction l generalizing i with
  | nil => simp at h
  | cons x xs ih =>
    cases i with
    | zero => simp
    | succ n =>
      simp only [List.getElem?_cons_succ] at h
      have := ih h
      simp only [List.length_cons]
      omega

/-- An index at or past the length has no value. -/
lemma getElem?_none_of_le {α : Type} {l : List α} {i : Nat}
    (h : l.length ≤ i) : l[i]? = none := by
  cases hq : l[i]? with
  | none => rfl
  | some a => have := lt_of_getElem?_eq_some hq; omega

/-- When every slot of every line fits, the slot count equals the total
number of coordinates. -/
lemma countSlots_eq_sum {inLines : List (List Char)}
    {cls : List (List Nat)} {i w : Nat}
    (h : ∀ j coords, cls[j]? = some coords →
      ∃ chars, inLines[i + j]? = some chars ∧
        ∀ c ∈ coords, c + w ≤ chars.length) :
    countSlots inLines cls i w = (cls.map List.length).sum := by
  induction cls generalizing i with
  | nil => rfl
  | cons coords rest ih =>
    obtain ⟨chars, hline, hfit⟩ := h 0 coords (by simp)
    rw [Nat.add_zero] at hline
    have hrest : ∀ j coords2, rest[j]? = some coords2 →
        ∃ chars2, inLines[(i + 1) + j]? = some chars2 ∧
          ∀ c ∈ coords2, c + w ≤ chars2.length := by
      intro j c2 hj
      have h2 := h (j + 1) c2 (by simpa using hj)
      rwa [show i + (j + 1) = (i + 1) + j from by omega] at h2
    have hfull :
        (coords.filter (fun c => decide (c + w ≤ chars.length))).length =
          coords.length := by
      rw [List.filter_eq_self.mpr]
      intro a ha
      exact decide_eq_true (hfit a ha)
    simp only [countSlots, hline, List.map_cons, List.sum_cons, ih hrest,
      hfull]

/-- A successful building-slot pass read two characters per slot. -/
lemma decodeBuildingSlots_ok_len {chars : List Char} {coords : List Nat}
    {id : Nat} {acc : List Building} {r : List Building × Nat}
    (h : decodeBuildingSlots chars coords id acc = .ok r) :
    ∀ c ∈ coords, c + 2 ≤ chars.length := by
  induction coords generalizing id acc with
  | nil => intro c hc; cases hc
  | cons c0 rest ih =>
    simp only [decodeBuildingSlots] at h
    cases h0 : chars[c0]? with
    | none => simp [h0] at h
    | some first =>
    cases h1 : chars[c0 + 1]? with
    | none => simp [h0, h1] at h
    | some second =>
    simp only [h0, h1] at h
    have hlen : c0 + 2 ≤ chars.length := by
      have := lt_of_getElem?_eq_some h1
      omega
    intro c hc
    rcases List.mem_cons.mp hc with rfl | hc2
    · exact hlen
    · by_cases ho : first = 'o'
      · rw [if_pos ho] at h
        exact ih h c hc2
      · rw [if_neg ho] at h
        cases hk : buildingKindOfChar second with
        | none => simp [hk] at h
        | some k =>
        simp only [hk] at h
        cases hp : playerOfChar first with
        | none => simp [hp] at h
        | some p =>
        simp only [hp] at h
        exact ih h c hc2

/-- A successful road-slot pass read one character per slot. -/
lemma decodeRoadSlots_ok_len {chars : List Char} {coords : List Nat}
    {id : Nat} {acc : List Road} {r : List Road × Nat}
    (h : decodeRoadSlots chars coords id acc = .ok r) :
    ∀ c ∈ coords, c + 1 ≤ chars.length := by
  induction coords generalizing id acc with
  | nil => intro c hc; cases hc
  | cons c0 rest ih =>
    simp only [decodeRoadSlots] at h
    cases h0 : chars[c0]? with
    | none => simp [h0] at h
    | some first =>
    simp only [h0] at h
    have hlen : c0 + 1 ≤ chars.length := lt_of_getElem?_eq_some h0
    intro c hc
    rcases List.mem_cons.mp hc with rfl | hc2
    · exact hlen
    · by_cases hd : first = '.'
      · rw [if_pos hd] at h
        exact ih h c hc2
      · rw [if_neg hd] at h
        cases hp : playerOfChar first with
        | none => simp [hp] at h
        | some p =>
        simp only [hp] at h
        exact ih h c hc2

/-- A successful tile-slot pass read four characters per slot and parsed
each slot's two dice characters as a u8. -/
lemma decodeTileSlots_ok_len_dice {chars : List Char} {coords : List Nat}
    {id : Nat} {acc : List Tile} {robber : Option Nat}
    {r : List Tile × Option Nat × Nat}
    (h : decodeTileSlots chars coords id acc robber = .ok r) :
    ∀ c ∈ coords, c + 4 ≤ chars.length ∧
      ∃ a b, chars[c]? = some a ∧ chars[c + 1]? = some b ∧
        (parseU8 [a, b]).isSome = true := by
  induction coords generalizing id acc robber with
  | nil => intro c hc; cases hc
  | cons c0 rest ih =>
    simp only [decodeTileSlots] at h
    cases h0 : chars[c0]? with
    | none => simp [h0] at h
    | some first =>
    cases h1 : chars[c0 + 1]? with
    | none => simp [h0, h1] at h
    | some second =>
    cases h2 : chars[c0 + 2]? with
    | none => simp [h0, h1, h2] at h
    | some third =>
    cases h3 : chars[c0 + 3]? with
    | none => simp [h0, h1, h2, h3] at h
    | some fourth =>
    simp only [h0, h1, h2, h3] at h
    cases hk : tileKindOfChar third with
    | none => simp [hk] at h
    | some kind =>
    simp only [hk] at h
    cases hp : parseU8 [first, second] with
    | none => simp [hp] at h
    | some dice =>
    simp only [hp] at h
    intro c hc
    rcases List.mem_cons.mp hc with rfl | hc2
    · refine ⟨?_, first, second, h0, h1, by rw [hp]; rfl⟩
      have := lt_of_getElem?_eq_some h3
      omega
    · exact ih h c hc2

/-- A successful tile-slot pass leaves the robber untouched unless some
slot's fourth character is the marker. -/
lemma decodeTileSlots_robber_src {chars : List Char} {coords : List Nat}
    {id : Nat} {acc : List Tile} {robber : Option Nat}
    {r : List Tile × Option Nat × Nat}
    (h : decodeTileSlots chars coords id acc robber = .ok r) :
    r.2.1 = robber ∨ ∃ c ∈ coords, chars[c + 3]? = some '!' := by
  induction coords generalizing id acc robber with
  | nil =>
    simp only [decodeTileSlots] at h
    injection h with h2
    left
    rw [← h2]
  | cons c0 rest ih =>
    simp only [decodeTileSlots] at h
    cases h0 : chars[c0]? with
    | none => simp [h0] at h
    | some first =>
    cases h1 : chars[c0 + 1]? with
    | none => simp [h0, h1] at h
    | some second =>
    cases h2 : chars[c0 + 2]? with
    | none => simp [h0, h1, h2] at h
    | some third =>
    cases h3 : chars[c0 + 3]? with
    | none => simp [h0, h1, h2, h3] at h
    | some fourth =>
    simp only [h0, h1, h2, h3] at h
    cases hk : tileKindOfChar third with
    | none => simp [hk] at h
    | some kind =>
    simp only [hk] at h
    cases hp : parseU8 [first, second] with
    | none => simp [hp] at h
    | some dice =>
    simp only [hp] at h
    by_cases hb : fourth = '!'
    · right
      refine ⟨c0, List.mem_cons_self _ _, ?_⟩
      rw [h3, hb]
    · rw [if_neg hb] at h
      rcases ih h with hr | ⟨c, hc, hbang⟩
      · left; exact hr
      · right; exact ⟨c, List.mem_cons_of_mem _ hc, hbang⟩

/-- A successful building stage: every coordinate line has an input line
and all its slots fit. -/
lemma decodeBuildingLines_ok_fit {inLines : List (List Char)}
    {cls : List (List Nat)} {i id : Nat} {acc : List Building}
    {r : List Building}
    (h : decodeBuildingLines inLines cls i id acc = .ok r) :
    ∀ j coords, cls[j]? = some coords →
      ∃ chars, inLines[i + j]? = some chars ∧
        ∀ c ∈ coords, c + 2 ≤ chars.length := by
  induction cls generalizing i id acc with
  | nil => intro j coords hj; simp at hj
  | cons coords0 rest ih =>
    simp only [decodeBuildingLines] at h
    cases hl : inLines[i]? with
    | none => simp [hl] at h
    | some chars =>
    simp only [hl] at h
    cases hs : decodeBuildingSlots chars coords0 id acc with
    | error e => simp [hs] at h
    | ok p =>
    obtain ⟨acc2, id2⟩ := p
    simp only [hs] at h
    intro j coords hj
    cases j with
    | zero =>
      simp only [List.getElem?_cons_zero, Option.some.injEq] at hj
      subst hj
      exact ⟨chars, by rw [Nat.add_zero]; exact hl,
        decodeBuildingSlots_ok_len hs⟩
    | succ j2 =>
      obtain ⟨chars2, hl2, hfit⟩ := ih h j2 coords (by simpa using hj)
      exact ⟨chars2,
        by rw [show i + (j2 + 1) = (i + 1) + j2 from by omega]; exact hl2,
        hfit⟩

/-- A successful road stage: every coordinate line has an input line and
all its slots fit. -/
lemma decodeRoadLines_ok_fit {inLines : List (List Char)}
    {cls : List (List Nat)} {i id : Nat} {acc : List Road}
    {r : List Road}
    (h : decodeRoadLines inLines cls i id acc = .ok r) :
    ∀ j coords, cls[j]? = some coords →
      ∃ chars, inLines[i + j]? = some chars ∧
        ∀ c ∈ coords, c + 1 ≤ chars.length := by
  induction cls generalizing i id acc with
  | nil => intro j coords hj; simp at hj
  | cons coords0 rest ih =>
    simp only [decodeRoadLines] at h
    cases hl : inLines[i]? with
    | none => simp [hl] at h
    | some chars =>
    simp only [hl] at h
    cases hs : decodeRoadSlots chars coords0 id acc with
    | error e => simp [hs] at h
    | ok p =>
    obtain ⟨acc2, id2⟩ := p
    simp only [hs] at h
    intro j coords hj
    cases j with
    | zero =>
      simp only [List.getElem?_cons_zero, Option.some.injEq] at hj
      subst hj
      exact ⟨chars, by rw [Nat.add_zero]; exact hl,
        decodeRoadSlots_ok_len hs⟩
    | succ j2 =>
      obtain ⟨chars2, hl2, hfit⟩ := ih h j2 coords (by simpa using hj)
      exact ⟨chars2,
        by rw [show i + (j2 + 1) = (i + 1) + j2 from by omega]; exact hl2,
        hfit⟩

/-- A successful tile stage: every coordinate line has an input line,
all its slots fit, and every slot's dice characters parse. -/
lemma decodeTileLines_ok_fit {inLines : List (List Char)}
    {cls : List (List Nat)} {i id : Nat} {acc : List Tile}
    {robber : Option Nat} {ts : List Tile} {rob : Option Nat}
    (h : decodeTileLines inLines cls i id acc robber = .ok (ts, rob)) :
    ∀ j coords, cls[j]? = some coords →
      ∃ chars, inLines[i + j]? = some chars ∧
        ∀ c ∈ coords, c + 4 ≤ chars.length ∧
          ∃ a b, chars[c]? = some a ∧ chars[c + 1]? = some b ∧
            (parseU8 [a, b]).isSome = true := by
  induction cls generalizing i id acc robber with
  | nil => intro j coords hj; simp at hj
  | cons coords0 rest ih =>
    simp only [decodeTileLines] at h
    cases hl : inLines[i]? with
    | none => simp [hl] at h
    | some chars =>
    simp only [hl] at h
    cases hs : decodeTileSlots chars coords0 id acc robber with
    | error e => simp [hs] at h
    | ok p =>
    obtain ⟨acc2, robber2, id2⟩ := p
    simp only [hs] at h
    intro j coords hj
    cases j with
    | zero =>
      simp only [List.getElem?_cons_zero, Option.some.injEq] at hj
      subst hj
      exact ⟨chars, by rw [Nat.add_zero]; exact hl,
        decodeTileSlots_ok_len_dice hs⟩
    | succ j2 =>
      obtain ⟨chars2, hl2, hfit⟩ := ih h j2 coords (by simpa using hj)
      exact ⟨chars2,
        by rw [show i + (j2 + 1) = (i + 1) + j2 from by omega]; exact hl2,
        hfit⟩

/-- A successful tile stage leaves the robber untouched unless some tile
slot's fourth character is the marker. -/
lemma decodeTileLines_robber_src {inLines : List (List Char)}
    {cls : List (List Nat)} {i id : Nat} {acc : List Tile}
    {robber : Option Nat} {ts : List Tile} {rob : Option Nat}
    (h : decodeTileLines inLines cls i id acc robber = .ok (ts, rob)) :
    rob = robber ∨ ∃ j coords, cls[j]? = some coords ∧ ∃ c ∈ coords,
      ((inLines[i + j]?).bind (fun l => l[c + 3]?)) = some '!' := by
  induction cls generalizing i id acc robber with
  | nil =>
    simp only [decodeTileLines] at h
    simp only [Except.ok.injEq, Prod.mk.injEq] at h
    left
    exact h.2.symm
  | cons coords0 rest ih =>
    simp only [decodeTileLines] at h
    cases hl : inLines[i]? with
    | none => simp [hl] at h
    | some chars =>
    simp only [hl] at h
    cases hs : decodeTileSlots chars coords0 id acc robber with
    | error e => simp [hs] at h
    | ok p =>
    obtain ⟨acc2, robber2, id2⟩ := p
    simp only [hs] at h
    rcases ih h with hr | ⟨j, coords, hj, c, hc, hbang⟩
    · rcases decodeTileSlots_robber_src hs with hr2 | ⟨c, hc, hbang⟩
      · left
        rw [hr]
        exact hr2
      · right
        refine ⟨0, coords0, by simp, c, hc, ?_⟩
        rw [Nat.add_zero, hl]
        exact hbang
    · right
      refine ⟨j + 1, coords, by simpa using hj, c, hc, ?_⟩
      rw [show i + (j + 1) = (i + 1) + j from by omega]
      exact hbang

/-- sampleResourceInput decodes to sampleResourceGame. -/
lemma decode_sample_eq :
    decodeGame sampleResourceInput.data = .ok sampleResourceGame := by
  decide

/-- reorderedResourceInput decodes to reorderedResourceGame. -/
lemma decode_reordered_eq :
    decodeGame reorderedResourceInput.data = .ok reorderedResourceGame := by
  decide

/-- plusDiceInput decodes to plusDiceGame. -/
lemma decode_plus_eq :
    decodeGame plusDiceInput.data = .ok plusDiceGame := by
  decide

/-- noBangInput fails to decode: the robber unwrap panics. -/
lemma decode_noBang_eq :
    decodeGame noBangInput.data = .error (.panicked "unwrap on None") := by
  decide

/-- The empty input fails to decode: the line fetch panics. -/
lemma decode_empty_eq :
    decodeGame "".data = .error (.panicked "unwrap on None") := by
  decide

set_option maxHeartbeats 4000000 in
/-- Encoding sampleResourceGame yields exactly the board part of
sampleResourceInput, with no resource-count lines. -/
lemma encode_sample_eq :
    encodeGame sampleResourceGame = sampleBoardPart.data := by
  decide

set_option maxHeartbeats 4000000 in
/-- Encoding testGame1 yields encodedTestGame1. -/
lemma encode_testGame1_eq :
    encodeGame testGame1 = encodedTestGame1.data := by
  decide

/-- encodedTestGame1 fails to decode: it has no resource-count lines, so
resource_lines[0] panics. -/
lemma decode_encodedTestGame1_eq :
    decodeGame encodedTestGame1.data =
      .error (.panicked "index out of bounds") := by
  decide

/-- C2: decoding the encoding of the game of the crate's own round-trip
test test_parse1 — a reachable game: all building and road ids in
bounds, one robber, small resource counts — does not yield a Game at
all: the encoder emits no resource-count lines, so the decoder panics
indexing the empty resource-line vector. -/
theorem C2_roundtrip_decode_fails :
    (∀ b ∈ testGame1.state.buildings, b.intersection_id < 54) ∧
    (∀ r ∈ testGame1.state.roads, r.id < 72) ∧
    testGame1.state.robber < 19 ∧
    decodeGame (encodeGame testGame1) =
      .error (.panicked "index out of bounds") := by
  refine ⟨by decide, by decide, by decide, ?_⟩
  rw [encode_testGame1_eq]
  exact decode_encodedTestGame1_eq

/-- C1 counterexample: sampleResourceInput is a syntactically valid
encoded board-plus-resources string (it decodes successfully), yet
encoding the decoded game does not reproduce it: the encoder emits
exactly the board part and drops the resource-count lines. -/
theorem C1_counterexample :
    decodeGame sampleResourceInput.data = .ok sampleResourceGame ∧
    encodeGame sampleResourceGame = sampleBoardPart.data ∧
    encodeGame sampleResourceGame ≠ sampleResourceInput.data := by
  refine ⟨decode_sample_eq, encode_sample_eq, ?_⟩
  rw [encode_sample_eq]
  decide

/-- C3 counterexample: reordering the three resource-count lines of a
valid input (same three lines, order R, W, B instead of W, R, B)
changes the decoded counts — White receives the numbers of the line
headed R — so the decoder does not assign lines by their leading
letter. -/
theorem C3_counterexample :
    (filteredResourceLines sampleResourceInput.data).Perm
      (filteredResourceLines reorderedResourceInput.data) ∧
    (decodeGame sampleResourceInput.data).toOption.map
      (fun g => g.state.resources.white) = some ⟨1, 2, 3, 4, 5⟩ ∧
    (decodeGame reorderedResourceInput.data).toOption.map
      (fun g => g.state.resources.white) = some ⟨6, 7, 8, 9, 10⟩ := by
  refine ⟨by decide, ?_, ?_⟩
  · rw [decode_sample_eq]; rfl
  · rw [decode_reordered_eq]; rfl

/-- C8 counterexample: the empty input has building, tile and road slot
counts 0 and decoding does fail, but by a panic (line unwrap), not by
returning the invalid-input error to the caller. -/
theorem C8_counterexample :
    buildingSlotCount "".data = 0 ∧ tileSlotCount "".data = 0 ∧
    roadSlotCount "".data = 0 ∧
    decodeGame "".data = .error (.panicked "unwrap on None") ∧
    isInvalidE (decodeGame "".data) = false := by
  refine ⟨by decide, by decide, by decide, decode_empty_eq, ?_⟩
  rw [decode_empty_eq]
  rfl

/-- C9 counterexample: replacing the first tile slot's dice text "10"
by "+9" (whose first character is not numeric) still decodes
successfully — the u8 parse accepts a leading plus sign — and dropping
the robber marker makes decoding fail by a panic (robber unwrap), not
by a returned invalid-input error. -/
theorem C9_counterexample :
    tileRead plusDiceInput.data 2 14 = some '+' ∧ '+'.isDigit = false ∧
    tile_coordinates[2]? = some [14, 24, 34] ∧
    (decodeGame plusDiceInput.data).toOption.map (fun g => g.tiles[0]?) =
      some (some ⟨9, .Ore⟩) ∧
    decodeGame noBangInput.data = .error (.panicked "unwrap on None") ∧
    isInvalidE (decodeGame noBangInput.data) = false := by
  refine ⟨by decide, by decide, by decide, ?_, decode_noBang_eq, ?_⟩
  · rw [decode_plus_eq]; rfl
  · rw [decode_noBang_eq]; rfl

/-- C3: on any successful decode the three parsed resource-count lines
are assigned positionally over the filtered list — filtered line 0
feeds White, line 1 Red and line 2 Blue, irrespective of each line's
leading letter. -/
theorem C3_resource_lines_positional (s : List Char) (g : Game)
    (h : decodeGame s = .ok g) :
    ∃ lw lr lb wv rv bv,
      (filteredResourceLines s)[0]? = some lw ∧
      (filteredResourceLines s)[1]? = some lr ∧
      (filteredResourceLines s)[2]? = some lb ∧
      parseCountsLine lw = .ok wv ∧ parseCountsLine lr = .ok rv ∧
      parseCountsLine lb = .ok bv ∧
      resourceCountOfVec wv = .ok g.state.resources.white ∧
      resourceCountOfVec rv = .ok g.state.resources.red ∧
      resourceCountOfVec bv = .ok g.state.resources.blue := by
  obtain ⟨bs, rds, tls, rb, wv, rv, bv, hB, hRd, hT, hV, h19, hR, hBl, hW,
    hg1, hg2, hg3, hg4⟩ := decodeGame_ok_inv h
  obtain ⟨lw, lr, lb, h0, h1, h2, hp0, hp1, hp2⟩ :=
    decodeResourceVecs_ok_inv hV
  exact ⟨lw, lr, lb, wv, rv, bv, h0, h1, h2, hp0, hp1, hp2, hW, hR, hBl⟩

/-- C3 witness: the positional-assignment theorem at the sample resource
input and its decoded game. -/
theorem C3_witness :
    ∃ lw lr lb wv rv bv,
      (filteredResourceLines sampleResourceInput.data)[0]? = some lw ∧
      (filteredResourceLines sampleResourceInput.data)[1]? = some lr ∧
      (filteredResourceLines sampleResourceInput.data)[2]? = some lb ∧
      parseCountsLine lw = .ok wv ∧ parseCountsLine lr = .ok rv ∧
      parseCountsLine lb = .ok bv ∧
      resourceCountOfVec wv = .ok sampleResourceGame.state.resources.white ∧
      resourceCountOfVec rv = .ok sampleResourceGame.state.resources.red ∧
      resourceCountOfVec bv = .ok sampleResourceGame.state.resources.blue :=
  C3_resource_lines_positional sampleResourceInput.data sampleResourceGame
    decode_sample_eq

/-- C8: any input text whose count of present building, tile or road
slots differs from 54, 19 or 72 fails to decode (the failure is a panic
or a returned error depending on the first defect met, but never a
Game). -/
theorem C8_slot_counts (s : List Char)
    (h : buildingSlotCount s ≠ 54 ∨ tileSlotCount s ≠ 19 ∨
      roadSlotCount s ≠ 72) :
    isOkE (decodeGame s) = false := by
  cases hd : decodeGame s with
  | error e => rfl
  | ok g =>
  exfalso
  obtain ⟨bs, rds, tls, rb, wv, rv, bv, hB, hRd, hT, hV, _⟩ :=
    decodeGame_ok_inv hd
  have hb : buildingSlotCount s = 54 := by
    rw [buildingSlotCount,
      countSlots_eq_sum (decodeBuildingLines_ok_fit hB)]
    decide
  have ht : tileSlotCount s = 19 := by
    have hfit := decodeTileLines_ok_fit hT
    rw [tileSlotCount, countSlots_eq_sum (fun j coords hj =>
      (hfit j coords hj).imp (fun chars hp =>
        ⟨hp.1, fun c hc => (hp.2 c hc).1⟩))]
    decide
  have hr : roadSlotCount s = 72 := by
    rw [roadSlotCount, countSlots_eq_sum (decodeRoadLines_ok_fit hRd)]
    decide
  rcases h with h | h | h
  · exact h hb
  · exact h ht
  · exact h hr

/-- C8 witness: the one-character input has slot counts 0 and decodes
to no Game. -/
theorem C8_witness : isOkE (decodeGame "x".data) = false :=
  C8_slot_counts "x".data (Or.inl (by decide))

/-- C9: an input text in which no tile slot carries the robber marker,
or in which some tile slot's two dice characters do not parse as a u8,
decodes to no Game (by panic rather than by the returned invalid-input
error, per the counterexample). -/
theorem C9_robber_dice (s : List Char)
    (h : noRobberMarker s = true ∨ hasBadDiceSlot s = true) :
    isOkE (decodeGame s) = false := by
  cases hd : decodeGame s with
  | error e => rfl
  | ok g =>
  exfalso
  obtain ⟨bs, rds, tls, rb, wv, rv, bv, hB, hRd, hT, hV, _⟩ :=
    decodeGame_ok_inv hd
  rcases h with h | h
  · rcases decodeTileLines_robber_src hT with hr |
      ⟨j, coords, hj, c, hc, hread⟩
    · exact Option.noConfusion hr
    · have hjlt : j < tile_coordinates.length := lt_of_getElem?_eq_some hj
      rw [noRobberMarker] at h
      have hall := List.all_eq_true.mp h j (List.mem_range.mpr hjlt)
      rw [hj, Option.getD_some] at hall
      have hc2 := List.all_eq_true.mp hall c hc
      rw [Nat.zero_add] at hread
      rw [tileRead] at hc2
      rw [hread] at hc2
      simp at hc2
  · rw [hasBadDiceSlot] at h
    obtain ⟨j, hjmem, hinner⟩ := List.any_eq_true.mp h
    obtain ⟨c, hcmem, hbad⟩ := List.any_eq_true.mp hinner
    have hjlt := List.mem_range.mp hjmem
    obtain ⟨coords, hj⟩ : ∃ coords, tile_coordinates[j]? = some coords :=
      ⟨tile_coordinates[j], List.getElem?_eq_getElem hjlt⟩
    rw [hj, Option.getD_some] at hcmem
    obtain ⟨chars, hline, hprops⟩ := decodeTileLines_ok_fit hT j coords hj
    rw [Nat.zero_add] at hline
    obtain ⟨-, a, b, ha, hb2, hsome⟩ := hprops c hcmem
    rw [badDiceAt] at hbad
    have hta : tileRead s j c = some a := by
      rw [tileRead, hline]; exact ha
    have htb : tileRead s j (c + 1) = some b := by
      rw [tileRead, hline]; exact hb2
    simp only [hta, htb] at hbad
    rw [Option.isNone_iff_eq_none] at hbad
    rw [hbad] at hsome
    simp at hsome

/-- C9 witness: the input with the robber marker removed decodes to no
Game. -/
theorem C9_witness : isOkE (decodeGame noBangInput.data) = false :=
  C9_robber_dice noBangInput.data (Or.inl (by decide))

end Settlers
